import Mathlib

set_option maxHeartbeats 1000000

/-!
Verification of the Business_Card_Demo repository's response-repair pass.

The repository's scripts share one reusable algorithm: given a model's raw
text reply that is supposed to contain a single JSON object, strip markdown
fences, salvage the JSON substring, and parse it.  This file embeds that
algorithm, one definition per variant, working over `List Char` so every
step of the Python string manipulation is explicit.
-/

/-- Character lists stand in for Python strings. -/
abbrev Str := List Char

/-- The opening-brace character, kept as a named constant. -/
def lbrace : Char := Char.ofNat 123

/-- The closing-brace character, kept as a named constant. -/
def rbrace : Char := Char.ofNat 125

/-- The backtick character, kept as a named constant. -/
def btick : Char := Char.ofNat 96

/-! ## Python string primitives

Each definition below models one Python `str` operation exactly as the
repository's scripts use it. -/

/-- Whitespace stripped by Python's `str.strip()` on ASCII text: space, tab,
newline, carriage return, vertical tab and form feed. -/
def isPyWs (c : Char) : Bool :=
  c = ' ' || c = '\t' || c = '\n' || c = '\r' || c.toNat = 11 || c.toNat = 12

/-- Python `s.strip()`: drop leading and trailing whitespace. -/
def pyStrip (cs : Str) : Str :=
  ((cs.dropWhile isPyWs).reverse.dropWhile isPyWs).reverse

/-- Python `s.strip(chars)`: drop leading and trailing characters drawn from
the given set (used by `ollama_moondream.py` as `strip('\x60 \n')`). -/
def pyStripSet (set : Str) (cs : Str) : Str :=
  ((cs.dropWhile (set.contains ·)).reverse.dropWhile (set.contains ·)).reverse

/-- Split at the first occurrence of `sep`: `some (before, after)` when `sep`
occurs, `none` otherwise.  Basis for `in`, `split`, and fence handling. -/
def listSplitFirst (sep : Str) : Str → Option (Str × Str)
  | [] => if sep.isEmpty then some ([], []) else none
  | c :: rest =>
    if sep.isPrefixOf (c :: rest) then some ([], (c :: rest).drop sep.length)
    else (listSplitFirst sep rest).map (fun p => (c :: p.1, p.2))

/-- Python `sep in s` (substring containment). -/
def containsSub (sep cs : Str) : Bool := (listSplitFirst sep cs).isSome

/-- Python `s.split(sep)[0]`: the part before the first occurrence of `sep`
(the whole string when `sep` is absent). -/
def pySplitGet0 (sep cs : Str) : Str :=
  match listSplitFirst sep cs with
  | some p => p.1
  | none => cs

/-- The part after the first occurrence of `sep` (empty when absent). -/
def afterFirst (sep cs : Str) : Str :=
  match listSplitFirst sep cs with
  | some p => p.2
  | none => []

/-- Python `s.split(sep)[1]`: the segment strictly between the first and
second non-overlapping occurrences of `sep` (to the end when `sep` occurs
only once).  The scripts only evaluate it under a `sep in s` guard. -/
def pySplitGet1 (sep cs : Str) : Str := pySplitGet0 sep (afterFirst sep cs)

/-- Python `s.index(c)` for a character: index of the first occurrence
(callers guard with `c in s`). -/
def idxOfAux (c : Char) : Str → Nat → Nat
  | [], n => n
  | d :: rest, n => if d = c then n else idxOfAux c rest (n + 1)

/-- First index of `c` in `cs` (is `cs.length` when absent). -/
def idxOf (c : Char) (cs : Str) : Nat := idxOfAux c cs 0

/-- Python `s.rindex(c)`: index of the last occurrence (callers guard with
`c in s`). -/
def rIdxOf (c : Char) (cs : Str) : Nat := cs.length - 1 - idxOf c cs.reverse

/-! ## JSON values

`json.loads` / `json.dumps` from the Python standard library are modelled by
an executable parser and serializer over `JsonVal`.  JSON numbers are
modelled as integers (the business-card scripts never exercise float
literals, and floating point is outside the embedding); `\uXXXX` escapes are
not modelled. -/

/-- A parsed JSON value.  Objects are insertion-ordered key/value lists,
mirroring Python `dict` semantics (duplicate source keys collapse onto the
first position with the last value, as `json.loads` does). -/
inductive JsonVal where
  | null : JsonVal
  | bool (b : Bool) : JsonVal
  | num (n : Int) : JsonVal
  | str (s : Str) : JsonVal
  | arr (elems : List JsonVal) : JsonVal
  | obj (fields : List (Str × JsonVal)) : JsonVal

/-- Python `d[k] = v` on a `dict`: replace in place when the key exists,
append otherwise. -/
def insertKey : List (Str × JsonVal) → Str → JsonVal → List (Str × JsonVal)
  | [], k, v => [(k, v)]
  | (k', v') :: rest, k, v =>
    if k' = k then (k, v) :: rest else (k', v') :: insertKey rest k v

/-- Python item assignment `obj[k] = v`: succeeds only on a dict; on a list,
string or scalar it raises `TypeError`, modelled as `none`. -/
def setItem (v : JsonVal) (k : Str) (x : JsonVal) : Option JsonVal :=
  match v with
  | .obj kvs => some (.obj (insertKey kvs k x))
  | _ => none

/-- Key lookup on an object field list. -/
def lookupKvs : List (Str × JsonVal) → Str → Option JsonVal
  | [], _ => none
  | (k', v) :: rest, k => if k' = k then some v else lookupKvs rest k

/-- Key lookup: `none` on non-objects and missing keys. -/
def lookupKey (v : JsonVal) (k : Str) : Option JsonVal :=
  match v with
  | .obj kvs => lookupKvs kvs k
  | _ => none

/-- Whether a JSON value is an object (a Python `dict`). -/
def isObjB : JsonVal → Bool
  | .obj _ => true
  | _ => false

/-! ## JSON parsing (`json.loads`, strict mode) -/

/-- Whitespace skipped between JSON tokens (RFC 8259 / CPython scanner). -/
def isJsonWs (c : Char) : Bool := c = ' ' || c = '\t' || c = '\n' || c = '\r'

/-- Skip inter-token whitespace. -/
def skipWs (cs : Str) : Str := cs.dropWhile isJsonWs

/-- Decimal digit in the JSON grammar. -/
def isDigit (c : Char) : Bool := 48 ≤ c.toNat && c.toNat ≤ 57

/-- Numeric value of a digit character. -/
def digitVal (c : Char) : Nat := c.toNat - 48

/-- The character for a decimal digit. -/
def digitChar (d : Nat) : Char := Char.ofNat (48 + d)

/-- Greedily consume a run of digits, folding them onto an accumulator,
exactly as the scanner's number token is evaluated. -/
def takeDigitsAcc : Nat → Str → Nat × Str
  | acc, [] => (acc, [])
  | acc, c :: rest =>
    if isDigit c then takeDigitsAcc (acc * 10 + digitVal c) rest else (acc, c :: rest)

/-- Parse a JSON natural-number token: a lone `0`, or a nonzero digit
followed by a digit run (the grammar forbids leading zeros, so after `0` the
scanner stops, surfacing `01` as trailing garbage just as CPython does). -/
def parseNatTok : Str → Option (Nat × Str)
  | [] => none
  | c :: rest =>
    if c = '0' then some (0, rest)
    else if isDigit c then some (takeDigitsAcc (digitVal c) rest)
    else none

/-- Parse an optionally signed integer token. -/
def parseNumTok : Str → Option (Int × Str)
  | [] => none
  | c :: rest =>
    if c = '-' then (parseNatTok rest).map (fun p => (-(p.1 : Int), p.2))
    else (parseNatTok (c :: rest)).map (fun p => ((p.1 : Int), p.2))

/-- Resolve a backslash escape inside a JSON string literal.  `\uXXXX` is
outside the model (`none`). -/
def unescape (c : Char) : Option Char :=
  if c = '"' then some '"'
  else if c = '\\' then some '\\'
  else if c = '/' then some '/'
  else if c = 'n' then some '\n'
  else if c = 't' then some '\t'
  else if c = 'r' then some '\r'
  else if c = 'b' then some (Char.ofNat 8)
  else if c = 'f' then some (Char.ofNat 12)
  else none

/-- Parse the body of a JSON string literal after the opening quote; strict
mode rejects raw control characters below `0x20`. -/
def parseStrBody : Str → Option (Str × Str)
  | [] => none
  | c :: rest =>
    if c = '"' then some ([], rest)
    else if c = '\\' then
      match rest with
      | [] => none
      | e :: rest2 =>
        match unescape e with
        | none => none
        | some d => (parseStrBody rest2).map (fun p => (d :: p.1, p.2))
    else if c.toNat < 32 then none
    else (parseStrBody rest).map (fun p => (c :: p.1, p.2))

/-- Recursive-descent modes: a single value, the elements of an array after
the opening bracket, or the members of an object after the opening brace. -/
inductive PMode where
  | val : PMode
  | elems (acc : List JsonVal) : PMode
  | members (acc : List (Str × JsonVal)) : PMode

/-- One fuel-indexed step of the JSON recursive-descent parser.  Fuel is
structural so the definition evaluates by kernel reduction; the top-level
entry point supplies more fuel than any input can consume. -/
def parseStep : Nat → PMode → Str → Option (JsonVal × Str)
  | 0, _, _ => none
  | Nat.succ f, .val, cs0 =>
    let cs := skipWs cs0
    if "null".data.isPrefixOf cs then some (.null, cs.drop 4)
    else if "true".data.isPrefixOf cs then some (.bool true, cs.drop 4)
    else if "false".data.isPrefixOf cs then some (.bool false, cs.drop 5)
    else
      match cs with
      | [] => none
      | c :: rest =>
        if c = '"' then (parseStrBody rest).map (fun p => (JsonVal.str p.1, p.2))
        else if c = lbrace then
          match skipWs rest with
          | [] => none
          | c2 :: rest2 =>
            if c2 = rbrace then some (JsonVal.obj [], rest2)
            else parseStep f (.members []) (c2 :: rest2)
        else if c = '[' then
          match skipWs rest with
          | [] => none
          | c2 :: rest2 =>
            if c2 = ']' then some (JsonVal.arr [], rest2)
            else parseStep f (.elems []) (c2 :: rest2)
        else (parseNumTok (c :: rest)).map (fun p => (JsonVal.num p.1, p.2))
  | Nat.succ f, .elems acc, cs =>
    match parseStep f .val cs with
    | none => none
    | some (v, r1) =>
      match skipWs r1 with
      | [] => none
      | c2 :: r2 =>
        if c2 = ',' then parseStep f (.elems (acc ++ [v])) r2
        else if c2 = ']' then some (JsonVal.arr (acc ++ [v]), r2)
        else none
  | Nat.succ f, .members acc, cs =>
    match skipWs cs with
    | [] => none
    | c :: rest =>
      if c = '"' then
        match parseStrBody rest with
        | none => none
        | some (k, r1) =>
          match skipWs r1 with
          | [] => none
          | c2 :: r2 =>
            if c2 = ':' then
              match parseStep f .val r2 with
              | none => none
              | some (v, r3) =>
                match skipWs r3 with
                | [] => none
                | c3 :: r4 =>
                  if c3 = ',' then parseStep f (.members (insertKey acc k v)) r4
                  else if c3 = rbrace then some (JsonVal.obj (insertKey acc k v), r4)
                  else none
            else none
      else none

/-- The model of `json.loads`: parse one value, then require only trailing
whitespace ("Extra data" otherwise). -/
def pyJsonLoads (cs : Str) : Option JsonVal :=
  match parseStep (cs.length + 1) .val cs with
  | some (v, rest) => if (skipWs rest).isEmpty then some v else none
  | none => none

/-! ## JSON serialization (`json.dumps` with default separators)

`json.dumps` joins array items and object members with `", "` and keys to
values with `": "`.  Escapes cover the characters `dumps` escapes within the
model's character range; non-ASCII characters are emitted raw (CPython
`\uXXXX`-escapes them, but `loads` maps that form back to the same
character, so the composed round trip agrees). -/

/-- Decimal digits of a natural number, most significant first.  Fuel is
structural (`n` itself is always enough) so the definition reduces. -/
def digitsOfAux : Nat → Nat → Str
  | 0, n => [digitChar (n % 10)]
  | Nat.succ f, n =>
    if n < 10 then [digitChar n] else digitsOfAux f (n / 10) ++ [digitChar (n % 10)]

/-- Decimal representation of a natural number. -/
def digitsOf (n : Nat) : Str := digitsOfAux n n

/-- Decimal representation of an integer, as Python `repr`/`dumps` print it. -/
def serInt (n : Int) : Str :=
  if n < 0 then '-' :: digitsOf n.natAbs else digitsOf n.toNat

/-- Escape one character as `json.dumps` does within the modelled range. -/
def escChar (c : Char) : Str :=
  if c = '"' then ['\\', '"']
  else if c = '\\' then ['\\', '\\']
  else if c = '\n' then ['\\', 'n']
  else if c = '\t' then ['\\', 't']
  else if c = '\r' then ['\\', 'r']
  else if c = Char.ofNat 8 then ['\\', 'b']
  else if c = Char.ofNat 12 then ['\\', 'f']
  else [c]

/-- Escape a string body. -/
def escStr : Str → Str
  | [] => []
  | c :: rest => escChar c ++ escStr rest

mutual
/-- The model of `json.dumps` for one value. -/
def serVal : JsonVal → Str
  | .null => "null".data
  | .bool true => "true".data
  | .bool false => "false".data
  | .num n => serInt n
  | .str s => '"' :: escStr s ++ ['"']
  | .arr [] => ['[', ']']
  | .arr (v :: l) => '[' :: (serVal v ++ serListTail l) ++ [']']
  | .obj [] => [lbrace, rbrace]
  | .obj ((k, v) :: kvs) =>
    lbrace :: ('"' :: escStr k ++ '"' :: ':' :: ' ' :: serVal v ++ serKvsTail kvs)
      ++ [rbrace]
/-- Serialized `", "`-separated tail of an array. -/
def serListTail : List JsonVal → Str
  | [] => []
  | v :: rest => ',' :: ' ' :: (serVal v ++ serListTail rest)
/-- Serialized `", "`-separated tail of an object. -/
def serKvsTail : List (Str × JsonVal) → Str
  | [] => []
  | kv :: rest =>
    ',' :: ' ' :: ('"' :: escStr kv.1 ++ '"' :: ':' :: ' ' :: serVal kv.2
      ++ serKvsTail rest)
end

/-! ## The response-repair pass, one definition per script

Each `…Clean` definition reproduces the string cleanup of one script's
`parse_business_card`, starting from the model's reply text (after the
`.strip()` the script applies to the response content); each `…Repair`
definition adds the `json.loads` call and the failure dictionary built in
the corresponding `except` handler. -/

/-- The `"error"` key used by every failure dictionary. -/
def errKey : Str := "error".data

/-- The `"raw_output"` key used by the web-form failure dictionaries. -/
def rawOutputKey : Str := "raw_output".data

/-- Cleanup in `gradio_app.py` lines 116–120: strip, then cut `json_text[7:-3]`
(and strip again) only when the text starts with a ```` ```json ```` fence. -/
def gradioAppClean (s : Str) : Str :=
  let t := pyStrip s
  if "```json".data.isPrefixOf t then pyStrip ((t.drop 7).take ((t.drop 7).length - 3))
  else t

/-- The repair pass of `gradio_app.py` lines 116–131: whatever `json.loads`
returns is handed back; on failure the handler returns the error dictionary
with `raw_output` set to the cleaned text. -/
def gradioAppRepair (s : Str) : JsonVal :=
  match pyJsonLoads (gradioAppClean s) with
  | some v => v
  | none =>
    .obj [(errKey, .str "Failed to parse VLM output as JSON.".data),
          (rawOutputKey, .str (gradioAppClean s))]

/-- Cleanup in `ollama_Gradio.py` lines 94–98: same shape as `gradio_app.py`. -/
def ollamaGradioClean (s : Str) : Str :=
  let t := pyStrip s
  if "```json".data.isPrefixOf t then pyStrip ((t.drop 7).take ((t.drop 7).length - 3))
  else t

/-- The repair pass of `ollama_Gradio.py` lines 94–109. -/
def ollamaGradioRepair (s : Str) : JsonVal :=
  match pyJsonLoads (ollamaGradioClean s) with
  | some v => v
  | none =>
    .obj [(errKey, .str "Failed to parse model output as JSON.".data),
          (rawOutputKey, .str (ollamaGradioClean s))]

/-- Cleanup in `ollama_moondream.py` lines 73–79: like `gradio_app.py`, plus an
`elif` that strips a set of characters when the text starts with a backtick. -/
def moondreamClean (s : Str) : Str :=
  let t := pyStrip s
  if "```json".data.isPrefixOf t then pyStrip ((t.drop 7).take ((t.drop 7).length - 3))
  else if [btick].isPrefixOf t then pyStripSet [btick, ' ', '\n'] t
  else t

/-- The repair pass of `ollama_moondream.py` lines 73–89. -/
def moondreamRepair (s : Str) : JsonVal :=
  match pyJsonLoads (moondreamClean s) with
  | some v => v
  | none =>
    .obj [(errKey, .str "Failed to parse VLM output as JSON.".data),
          (rawOutputKey, .str (moondreamClean s))]

/-- Fence handling in `new_gradio.py` lines 136–140: cut out
`text.split("```json")[1].split("```")[0].strip()` when a tagged fence is
present, else the same with the bare fence, else leave the text alone. -/
def newGradioFence (t : Str) : Str :=
  if containsSub "```json".data t then
    pyStrip (pySplitGet0 "```".data (pySplitGet1 "```json".data t))
  else if containsSub "```".data t then
    pyStrip (pySplitGet0 "```".data (pySplitGet1 "```".data t))
  else t

/-- Brace extraction in `new_gradio.py` lines 142–146: when both braces occur,
keep `text[text.index(chr(123)) : text.rindex(chr(125)) + 1]`. -/
def newGradioExtract (t : Str) : Str :=
  if t.contains lbrace && t.contains rbrace then
    (t.take (rIdxOf rbrace t + 1)).drop (idxOf lbrace t)
  else t

/-- The full candidate text `new_gradio.py` hands to `json.loads`. -/
def newGradioClean (s : Str) : Str := newGradioExtract (newGradioFence (pyStrip s))

/-- Placeholder for `str(e)` of the `json.JSONDecodeError`; the scripts only
ever forward the message, so its exact text is irrelevant to every claim. -/
def jsonDecodeErrMsg : Str := "Expecting value".data

/-- The repair pass of `new_gradio.py` lines 136–167 as a function of the
model reply `s` and the OCR text `ocr`.  On a successful parse the script
executes `parsed[chr(95):: _raw_ocr_text] = ocr_text`, which raises
`TypeError` on a non-dict and is then caught by the generic `except` handler;
on `json.JSONDecodeError` it builds the four-field failure dictionary.  Note
the handler's `text` variable is always bound when the handler runs, because
`json.loads` is the only statement that can raise `JSONDecodeError` and it
executes after `text` is assigned. -/
def newGradioRepair (s ocr : Str) : JsonVal :=
  let text := newGradioClean s
  match pyJsonLoads text with
  | none =>
    .obj [(errKey, .str "Failed to parse JSON from LLM".data),
          ("raw_ocr_text".data, .str ocr),
          ("llm_output".data, .str text),
          ("parse_error".data, .str jsonDecodeErrMsg)]
  | some v =>
    match setItem v "_raw_ocr_text".data (.str ocr) with
    | some v2 => v2
    | none =>
      .obj [(errKey, .str "LLM structuring failed: TypeError".data),
            ("raw_ocr_text".data, .str ocr)]

/-! ## The web-form entry points

Each script's `parse_business_card(pil_image)` is embedded as a function of
the optional image (an opaque identifier), the in-process state the script
checks (whether the model loaded), and the external collaborators (image
encoder, OCR engine, inference backend), returning the result dictionary
together with the ordered list of external calls performed. -/

/-- An external call made by `parse_business_card`. -/
inductive Effect where
  | encode : Effect
  | ocr : Effect
  | infer : Effect
deriving DecidableEq

/-- The external collaborators, as oracles: the image encoder and the
inference call may raise (`Except.error` carries the exception text); the
OCR helper returns a string (it catches its own errors and returns an
`"OCR Error: …"` string, already stripped). -/
structure Backends where
  encodeImage : Nat → Except Str Str
  ocrExtract : Nat → Str
  llmInfer : Str → Except Str Str

/-- The failure value every variant returns for a missing upload. -/
def uploadErrObj : JsonVal := .obj [(errKey, .str "Please upload an image.".data)]

/-- `parse_business_card` of `gradio_app.py` (lines 62–131).  The script
checks `llm is None` before the `None`-image check. -/
def parse_business_card_gradio_app (llmLoaded : Bool) (img : Option Nat)
    (B : Backends) : JsonVal × List Effect :=
  if llmLoaded = false then
    (.obj [(errKey, .str "VLM model is not loaded. Check server logs.".data)], [])
  else
    match img with
    | none => (uploadErrObj, [])
    | some i =>
      match B.encodeImage i with
      | .error e =>
        (.obj [(errKey, .str ("Failed to process image: ".data ++ e))], [.encode])
      | .ok uri =>
        match B.llmInfer uri with
        | .error e =>
          (.obj [(errKey, .str ("VLM inference failed: ".data ++ e))],
           [.encode, .infer])
        | .ok content => (gradioAppRepair content, [.encode, .infer])

/-- `parse_business_card` of `ollama_Gradio.py` (lines 21–109). -/
def parse_business_card_ollama_gradio (img : Option Nat) (B : Backends) :
    JsonVal × List Effect :=
  match img with
  | none => (uploadErrObj, [])
  | some i =>
    match B.encodeImage i with
    | .error e =>
      (.obj [(errKey, .str ("Failed to process image: ".data ++ e))], [.encode])
    | .ok b64 =>
      match B.llmInfer b64 with
      | .error e =>
        (.obj [(errKey, .str ("Ollama inference failed: ".data ++ e))],
         [.encode, .infer])
      | .ok content => (ollamaGradioRepair content, [.encode, .infer])

/-- `parse_business_card` of `ollama_moondream.py` (lines 27–89). -/
def parse_business_card_ollama_moondream (img : Option Nat) (B : Backends) :
    JsonVal × List Effect :=
  match img with
  | none => (uploadErrObj, [])
  | some i =>
    match B.encodeImage i with
    | .error e =>
      (.obj [(errKey, .str ("Failed to process image: ".data ++ e))], [.encode])
    | .ok bytes =>
      match B.llmInfer bytes with
      | .error e =>
        (.obj [(errKey,
          .str ("Ollama inference failed: ".data ++ e
            ++ ". Is the Ollama server running?".data))], [.encode, .infer])
      | .ok content => (moondreamRepair content, [.encode, .infer])

/-- `parse_business_card` of `new_gradio.py` (lines 64–167): the `None` check
comes first, then OCR, then the LLM-loaded check, then inference. -/
def parse_business_card_new_gradio (llmLoaded : Bool) (img : Option Nat)
    (B : Backends) : JsonVal × List Effect :=
  match img with
  | none => (uploadErrObj, [])
  | some i =>
    let ocr := B.ocrExtract i
    if ocr.isEmpty || containsSub "OCR Error".data ocr then
      (.obj [(errKey, .str "Failed to extract text from image.".data),
             ("details".data, .str ocr)], [.ocr])
    else if llmLoaded = false then
      (.obj [(errKey, .str "LLM not loaded - returning raw OCR text".data),
             ("raw_ocr_text".data, .str ocr)], [.ocr])
    else
      match B.llmInfer ocr with
      | .error e =>
        (.obj [(errKey, .str ("LLM structuring failed: ".data ++ e)),
               ("raw_ocr_text".data, .str ocr)], [.ocr, .infer])
      | .ok content => (newGradioRepair content ocr, [.ocr, .infer])

/-! ## The REPL chat loop

`chat_mode` in `llama_cli.py` (lines 106–185) and `moondream_cli.py`
(lines 151–230) maintains a `conversation` list.  One loop iteration either
leaves it unchanged (empty input, image-load error `continue`), or appends a
user message and then — only when streaming the inference reply completes —
an assistant message; an exception during the inference call is caught by
the iteration's `except` handler after the user message was already
appended.  The loop is embedded as a step relation on the conversation. -/

/-- A chat role. -/
inductive Role where
  | user : Role
  | assistant : Role
deriving DecidableEq

/-- Message content: plain text, or an image data-URI paired with text. -/
inductive MsgContent where
  | text (s : Str) : MsgContent
  | imageText (uri s : Str) : MsgContent

/-- One role-tagged message of the `conversation` list. -/
structure ChatMsg where
  role : Role
  content : MsgContent

/-- One iteration of `chat_mode`'s `while True` loop, as observed on the
`conversation` list. -/
inductive ChatStep : List ChatMsg → List ChatMsg → Prop
  | skip (c : List ChatMsg) : ChatStep c c
  | exchange (c : List ChatMsg) (m : MsgContent) (r : Str) :
      ChatStep c (c ++ [⟨.user, m⟩, ⟨.assistant, .text r⟩])
  | inferFail (c : List ChatMsg) (m : MsgContent) :
      ChatStep c (c ++ [⟨.user, m⟩])

/-- Conversations reachable from the empty list at loop entry. -/
def ChatReachable (c : List ChatMsg) : Prop :=
  Relation.ReflTransGen ChatStep [] c

/-- Loop iterations whose inference call succeeded (no exception caught). -/
inductive ChatStepOk : List ChatMsg → List ChatMsg → Prop
  | skip (c : List ChatMsg) : ChatStepOk c c
  | exchange (c : List ChatMsg) (m : MsgContent) (r : Str) :
      ChatStepOk c (c ++ [⟨.user, m⟩, ⟨.assistant, .text r⟩])

/-- Conversations reachable when every inference call succeeds. -/
def ChatReachableOk (c : List ChatMsg) : Prop :=
  Relation.ReflTransGen ChatStepOk [] c

/-- The opposite role. -/
def swapRole : Role → Role
  | .user => .assistant
  | .assistant => .user

/-- Strict alternation of a role list, starting from an expected role. -/
def altFrom : Role → List Role → Bool
  | _, [] => true
  | e, m :: rest => (m = e) && altFrom (swapRole e) rest

/-- The conversation alternates user/assistant starting with a user turn. -/
def conversationAlt (c : List ChatMsg) : Bool :=
  altFrom .user (c.map (·.role))

/-! ## Literal inputs named by the specification -/

/-- The spec's brace-in-string literal. -/
def litBrace : Str := "\x7b\"name\": \"A\", \"note\": \"uses a \x7d brace\"\x7d".data

/-- The spec's prose-wrapped literal. -/
def litProse : Str :=
  "Sure! Here is the data: \x7b\"name\": \"A\"\x7d Let me know if you need more.".data

/-- The spec's tagged-fence literal. -/
def litFence : Str := "```json\n\x7b\"name\": \"Jane Doe\", \"title\": null\x7d\n```".data

/-- The tagged-fence literal's interior, with an untagged fence instead. -/
def litFenceBare : Str := "```\n\x7b\"name\": \"Jane Doe\", \"title\": null\x7d\n```".data

/-- The object the tagged-fence literal contains. -/
def janeObj : JsonVal :=
  .obj [("name".data, .str "Jane Doe".data), ("title".data, .null)]

/-! ## Round-trip infrastructure for the idempotence claim

`pyJsonLoads (serVal v) = some v` is proved for every value in the parser's
range; the range is characterized by `ValOk` (strings drawn from the
modelled character set, objects with distinct keys). -/

/-- Characters a parsed string can contain: everything at or above `0x20`,
plus the control characters that have short escapes. -/
def StrOk (s : Str) : Prop :=
  ∀ c ∈ s, 32 ≤ c.toNat ∨ c = '\n' ∨ c = '\t' ∨ c = '\r' ∨
    c = Char.ofNat 8 ∨ c = Char.ofNat 12

/-- Values in the parser's range. -/
inductive ValOk : JsonVal → Prop where
  | null : ValOk .null
  | bool (b : Bool) : ValOk (.bool b)
  | num (n : Int) : ValOk (.num n)
  | str (s : Str) : StrOk s → ValOk (.str s)
  | arr (l : List JsonVal) : (∀ v ∈ l, ValOk v) → ValOk (.arr l)
  | obj (kvs : List (Str × JsonVal)) :
      (∀ kv ∈ kvs, StrOk kv.1) → (∀ kv ∈ kvs, ValOk kv.2) →
      (kvs.map Prod.fst).Nodup → ValOk (.obj kvs)

/-- A rest-of-input a serialized number may be followed by: empty, or a
non-digit (so the greedy digit scanner stops exactly at the boundary). -/
def Delim : Str → Prop
  | [] => True
  | c :: _ => isDigit c = false

/-- Whitespace-only padding. -/
def WsOnly (pre : Str) : Prop := ∀ c ∈ pre, isJsonWs c = true

/-- The digit-run accumulator as a fold. -/
def valFold : Nat → Str → Nat
  | a, [] => a
  | a, c :: rest => valFold (a * 10 + digitVal c) rest

/-- Serialized elements of a nonempty array, without the brackets. -/
def serElemsInner : List JsonVal → Str
  | [] => []
  | v :: l => serVal v ++ serListTail l

/-- Serialized members of a nonempty object, without the braces. -/
def serMembersInner : List (Str × JsonVal) → Str
  | [] => []
  | (k, v) :: kvs => '"' :: escStr k ++ '"' :: ':' :: ' ' :: serVal v ++ serKvsTail kvs

/-! ## Executable probes of the embedding -/

theorem probe3 : pyJsonLoads "\x7b\"name\": \"A\"\x7d".data =
    some (.obj [("name".data, .str "A".data)]) := by rfl

theorem probe4 : pyJsonLoads " [1, -20, null] ".data =
    some (.arr [.num 1, .num (-20), .null]) := by rfl

theorem probe5 : pyJsonLoads "01".data = none := by rfl

theorem probe6 : pyJsonLoads "\x7b\"a\": 1, \"a\": 2\x7d".data =
    some (.obj [("a".data, .num 2)]) := by rfl

theorem probe7 : serVal (.obj [("a".data, .num (-3)), ("b".data, .arr [.null])]) =
    "\x7b\"a\": -3, \"b\": [null]\x7d".data := by
  simp [serVal, serListTail, serKvsTail, serInt, digitsOf, digitsOfAux, escStr, escChar]
  decide

theorem probe8 : newGradioRepair
    "Sure! Here is the data: \x7b\"name\": \"A\"\x7d Let me know if you need more.".data
    "OCR".data =
    .obj [("name".data, .str "A".data), ("_raw_ocr_text".data, .str "OCR".data)] := by rfl

theorem probe9 : gradioAppRepair
    "```json\n\x7b\"name\": \"Jane Doe\", \"title\": null\x7d\n```".data =
    .obj [("name".data, .str "Jane Doe".data), ("title".data, .null)] := by rfl

theorem probe10 : gradioAppRepair
    "\x7b\"name\": \"A\", \"note\": \"uses a \x7d brace\"\x7d".data =
    .obj [("name".data, .str "A".data),
          ("note".data, .str "uses a \x7d brace".data)] := by rfl

/-! ## Claims -/

/-- C10: for the input `None` (no image uploaded), `parse_business_card` in
every web-form variant returns the failure value
`\x7berror: Please upload an image.\x7d` with no encoding, OCR, or inference
call performed (empty effect list).  In `gradio_app.py` the model-loaded
check precedes the `None` check, so its conjunct is stated in the loaded
state, the only state in which the script launches the form (lines 141–149
refuse to start the app otherwise); the other three variants check the image
first, so their conjuncts hold for every state. -/
theorem c10_none_short_circuits (B : Backends) (loaded : Bool) :
    parse_business_card_gradio_app true none B = (uploadErrObj, []) ∧
    parse_business_card_new_gradio loaded none B = (uploadErrObj, []) ∧
    parse_business_card_ollama_gradio none B = (uploadErrObj, []) ∧
    parse_business_card_ollama_moondream none B = (uploadErrObj, []) :=
  ⟨rfl, rfl, rfl, rfl⟩

/-- C1, counterexample: on the valid non-object reply `[1, 2]`, the
`ollama_Gradio.py` repair pass returns the bare array itself to the caller —
not a parse-failure value (no `error` key is present) — refuting the claim
that valid non-object JSON is treated as a parse failure. -/
theorem c1_cex_non_object_returned :
    ollamaGradioRepair "[1, 2]".data = .arr [.num 1, .num 2] ∧
    isObjB (ollamaGradioRepair "[1, 2]".data) = false ∧
    lookupKey (ollamaGradioRepair "[1, 2]".data) errKey = none :=
  ⟨rfl, rfl, rfl⟩

/-- C1, amended: whatever `json.loads` returns, object or not, the
`ollama_Gradio.py` (and `gradio_app.py`) repair pass returns it unchanged to
the caller; only `new_gradio.py` turns a non-object into a failure value,
and it does so through the `TypeError` its diagnostic-append raises (caught
by the generic handler as "LLM structuring failed"), not as a parse
failure. -/
theorem c1_amended_non_objects (s : Str) :
    (∀ v, pyJsonLoads (ollamaGradioClean s) = some v → ollamaGradioRepair s = v) ∧
    (∀ ocr v, pyJsonLoads (newGradioClean s) = some v → isObjB v = false →
      newGradioRepair s ocr =
        .obj [(errKey, .str "LLM structuring failed: TypeError".data),
              ("raw_ocr_text".data, .str ocr)]) := by
  constructor
  · intro v h
    simp only [ollamaGradioRepair, h]
  · intro ocr v h hno
    have hset : setItem v "_raw_ocr_text".data (.str ocr) = none := by
      cases v <;> simp [setItem] <;> simp [isObjB] at hno
    simp only [newGradioRepair, h, hset]

/-- C1, witness for the amended claim at concrete inputs. -/
theorem c1_amended_witness :
    ollamaGradioRepair "[3]".data = .arr [.num 3] ∧
    newGradioRepair "7".data "o".data =
      .obj [(errKey, .str "LLM structuring failed: TypeError".data),
            ("raw_ocr_text".data, .str "o".data)] :=
  ⟨(c1_amended_non_objects "[3]".data).1 (.arr [.num 3]) rfl,
   (c1_amended_non_objects "7".data).2 "o".data (.num 7) rfl rfl⟩

/-- C2, counterexample: on the spec's brace-in-string literal the
`new_gradio.py` repair pass neither fails nor truncates: extraction runs
from the first opening brace to the **last** closing brace, which on this
input is the true closing brace, and the candidate parses to the complete
object (returned with the on-success diagnostic field appended). -/
theorem c2_cex_brace_literal_succeeds :
    newGradioRepair litBrace "OCR".data =
      .obj [("name".data, .str "A".data),
            ("note".data, .str "uses a \x7d brace".data),
            ("_raw_ocr_text".data, .str "OCR".data)] := rfl

/-- C2, amended: the brace-in-string literal is handled correctly: the
`gradio_app.py` pass parses it as-is to the full two-field object, and the
`new_gradio.py` extraction leaves it untouched (first `chr(123)` at index 0,
last `chr(125)` at the end), so no truncation occurs.  The unbalanced-brace
limitation of first-`\x7b`/last-`\x7d` extraction is not triggered by a
`\x7d` inside a string value; it would take stray braces in surrounding
prose to misalign the span. -/
theorem c2_amended_no_truncation :
    gradioAppRepair litBrace =
      .obj [("name".data, .str "A".data),
            ("note".data, .str "uses a \x7d brace".data)] ∧
    newGradioClean litBrace = litBrace :=
  ⟨rfl, rfl⟩

/-- C3, counterexample: on the prose-wrapped literal, the
`ollama_moondream.py` repair pass does **not** return the object
`\x7bname: A\x7d`: it has no brace extraction, hands the whole prose-wrapped
string to `json.loads`, and returns the parse-failure dictionary. -/
theorem c3_cex_prose_fails_in_moondream :
    moondreamRepair litProse =
      .obj [(errKey, .str "Failed to parse VLM output as JSON.".data),
            (rawOutputKey, .str litProse)] ∧
    lookupKey (moondreamRepair litProse) "name".data = none :=
  ⟨rfl, rfl⟩

/-- C3, amended: only the `new_gradio.py` variant discards prose before the
first opening brace and after the last closing brace; on the prose-wrapped
literal it parses `\x7bname: A\x7d` and returns it with the `_raw_ocr_text`
diagnostic appended.  The `gradio_app.py` (and `ollama_moondream.py`)
variants do no brace extraction and return a parse failure carrying the
original prose-wrapped string. -/
theorem c3_amended_prose_only_new_gradio (ocr : Str) :
    newGradioRepair litProse ocr =
      .obj [("name".data, .str "A".data), ("_raw_ocr_text".data, .str ocr)] ∧
    gradioAppRepair litProse =
      .obj [(errKey, .str "Failed to parse VLM output as JSON.".data),
            (rawOutputKey, .str litProse)] :=
  ⟨rfl, rfl⟩

/-- C5, counterexample: the input `123` contains no brace pair, yet the
`gradio_app.py` repair pass does not return a failure value with a
`raw_output` field — `json.loads` succeeds on the bare number and the pass
returns it to the caller. -/
theorem c5_cex_braceless_number_parses :
    gradioAppRepair "123".data = .num 123 ∧
    lookupKey (gradioAppRepair "123".data) rawOutputKey = none :=
  ⟨rfl, rfl⟩

/-- C5, amended: for an input with no `\x7b`/`\x7d` pair, **provided** the
stripped input is not itself valid JSON (braceless scalars and arrays parse
and are returned) and does not begin with a fence marker (the `[7:-3]` cut
would alter what `raw_output` reports), the repair pass returns a failure
value whose `raw_output` is the original string stripped of surrounding
whitespace; in `ollama_moondream.py` the input must also not begin with a
backtick, or the `strip` of backticks/spaces/newlines alters the text. -/
theorem c5_amended_braceless_failure (s : Str)
    (hnb : lbrace ∉ s ∨ rbrace ∉ s)
    (hfence : "```json".data.isPrefixOf (pyStrip s) = false)
    (hbt : [btick].isPrefixOf (pyStrip s) = false)
    (hfail : pyJsonLoads (pyStrip s) = none) :
    gradioAppRepair s =
      .obj [(errKey, .str "Failed to parse VLM output as JSON.".data),
            (rawOutputKey, .str (pyStrip s))] ∧
    ollamaGradioRepair s =
      .obj [(errKey, .str "Failed to parse model output as JSON.".data),
            (rawOutputKey, .str (pyStrip s))] ∧
    moondreamRepair s =
      .obj [(errKey, .str "Failed to parse VLM output as JSON.".data),
            (rawOutputKey, .str (pyStrip s))] := by
  have hclean : gradioAppClean s = pyStrip s := by
    simp only [gradioAppClean, hfence, Bool.false_eq_true, if_false]
  have hclean2 : ollamaGradioClean s = pyStrip s := by
    simp only [ollamaGradioClean, hfence, Bool.false_eq_true, if_false]
  have hclean3 : moondreamClean s = pyStrip s := by
    simp only [moondreamClean, hfence, hbt, Bool.false_eq_true, if_false]
  refine ⟨?_, ?_, ?_⟩
  · simp only [gradioAppRepair, hclean, hfail]
  · simp only [ollamaGradioRepair, hclean2, hfail]
  · simp only [moondreamRepair, hclean3, hfail]

/-- C5, witness for the amended claim at the braceless input `hello`. -/
theorem c5_amended_witness :
    gradioAppRepair "hello".data =
      .obj [(errKey, .str "Failed to parse VLM output as JSON.".data),
            (rawOutputKey, .str (pyStrip "hello".data))] ∧
    ollamaGradioRepair "hello".data =
      .obj [(errKey, .str "Failed to parse model output as JSON.".data),
            (rawOutputKey, .str (pyStrip "hello".data))] ∧
    moondreamRepair "hello".data =
      .obj [(errKey, .str "Failed to parse VLM output as JSON.".data),
            (rawOutputKey, .str (pyStrip "hello".data))] :=
  c5_amended_braceless_failure "hello".data (Or.inl (by decide)) rfl rfl rfl

/-- C6: every parse failure is recovered into a structured failure value
that carries the model text that failed to parse — `raw_output` in
`gradio_app.py`, `llm_output` plus the OCR text in `new_gradio.py` — and the
embedded failure paths are total functions: no exception (in particular no
`NameError`) escapes, since `new_gradio.py`'s `JSONDecodeError` handler can
only run after its `text` variable was assigned (`json.loads` is the sole
raiser of that exception and executes after the assignment). -/
theorem c6_failures_carry_raw_text (s ocr : Str) :
    (pyJsonLoads (newGradioClean s) = none →
      newGradioRepair s ocr =
        .obj [(errKey, .str "Failed to parse JSON from LLM".data),
              ("raw_ocr_text".data, .str ocr),
              ("llm_output".data, .str (newGradioClean s)),
              ("parse_error".data, .str jsonDecodeErrMsg)]) ∧
    (pyJsonLoads (gradioAppClean s) = none →
      gradioAppRepair s =
        .obj [(errKey, .str "Failed to parse VLM output as JSON.".data),
              (rawOutputKey, .str (gradioAppClean s))]) := by
  constructor
  · intro h
    simp only [newGradioRepair, h]
  · intro h
    simp only [gradioAppRepair, h]

/-- C6, witness at the unparseable reply `oops`. -/
theorem c6_witness :
    newGradioRepair "oops".data "O".data =
      .obj [(errKey, .str "Failed to parse JSON from LLM".data),
            ("raw_ocr_text".data, .str "O".data),
            ("llm_output".data, .str (newGradioClean "oops".data)),
            ("parse_error".data, .str jsonDecodeErrMsg)] ∧
    gradioAppRepair "oops".data =
      .obj [(errKey, .str "Failed to parse VLM output as JSON.".data),
            (rawOutputKey, .str (gradioAppClean "oops".data))] :=
  ⟨(c6_failures_carry_raw_text "oops".data "O".data).1 rfl,
   (c6_failures_carry_raw_text "oops".data "O".data).2 rfl⟩

/-- C7, counterexample: on a successful parse, `new_gradio.py` **does**
append a diagnostic field: the returned mapping carries `_raw_ocr_text`
even though parsing succeeded, refuting "never on a successful parse". -/
theorem c7_cex_diagnostic_on_success :
    newGradioRepair "\x7b\"name\": \"A\"\x7d".data "SOMEOCR".data =
      .obj [("name".data, .str "A".data),
            ("_raw_ocr_text".data, .str "SOMEOCR".data)] ∧
    lookupKey (newGradioRepair "\x7b\"name\": \"A\"\x7d".data "SOMEOCR".data)
      "_raw_ocr_text".data = some (.str "SOMEOCR".data) :=
  ⟨rfl, rfl⟩

/-- C7, amended: in `gradio_app.py` a successful parse is returned exactly
as parsed (unknown keys pass through, nothing appended) and `raw_output`
appears only on failure; `new_gradio.py` however appends `_raw_ocr_text` to
**every** successful object (its on-success diagnostic), in addition to its
failure-only fields. -/
theorem c7_amended_diagnostics (s ocr : Str) :
    (∀ v, pyJsonLoads (gradioAppClean s) = some v → gradioAppRepair s = v) ∧
    (pyJsonLoads (moondreamClean s) = none →
      lookupKey (moondreamRepair s) rawOutputKey =
        some (.str (moondreamClean s))) ∧
    (∀ kvs, pyJsonLoads (newGradioClean s) = some (.obj kvs) →
      newGradioRepair s ocr =
        .obj (insertKey kvs "_raw_ocr_text".data (.str ocr))) := by
  refine ⟨?_, ?_, ?_⟩
  · intro v h
    simp only [gradioAppRepair, h]
  · intro h
    simp only [moondreamRepair, h, lookupKey, lookupKvs]
    rw [if_neg (by decide), if_pos trivial]
  · intro kvs h
    simp only [newGradioRepair, h, setItem]

/-! Auxiliary facts about the split/strip primitives, used to settle the
fence claims for an arbitrary fenced interior. -/

theorem listSplitFirst_nil (sep : Str) (h : sep ≠ []) : listSplitFirst sep [] = none := by
  unfold listSplitFirst
  rw [if_neg]
  simpa using h

theorem listSplitFirst_startsWith (sep rest : Str) (h : sep ≠ []) :
    listSplitFirst sep (sep ++ rest) = some ([], rest) := by
  match sep with
  | [] => exact absurd rfl h
  | a :: t =>
    show listSplitFirst (a :: t) ((a :: t) ++ rest) = _
    rw [List.cons_append]
    unfold listSplitFirst
    rw [if_pos]
    · rw [← List.cons_append, List.drop_left]
    · rw [List.isPrefixOf_iff_prefix, ← List.cons_append]
      exact List.prefix_append (a :: t) rest

theorem listSplitFirst_cons (sep : Str) (a : Char) (l : Str) :
    listSplitFirst sep (a :: l) =
      if sep.isPrefixOf (a :: l) = true then some ([], (a :: l).drop sep.length)
      else (listSplitFirst sep l).map (fun p => (a :: p.1, p.2)) := by
  conv_lhs => unfold listSplitFirst

theorem listSplitFirst_bfree (sep : Str) (t0 : Str) (hsep : sep = btick :: t0) :
    ∀ xs ys, btick ∉ xs →
      listSplitFirst sep (xs ++ ys) =
        (listSplitFirst sep ys).map (fun p => (xs ++ p.1, p.2)) := by
  intro xs
  induction xs with
  | nil =>
    intro ys _
    simp only [List.nil_append]
    cases listSplitFirst sep ys with
    | none => rfl
    | some p => rfl
  | cons a xs ih =>
    intro ys ha
    have hab : a ≠ btick := by
      intro h
      exact ha (by simp [h])
    rw [List.cons_append, listSplitFirst_cons, if_neg]
    · rw [ih ys (by intro h; exact ha (by simp [h]))]
      cases listSplitFirst sep ys with
      | none => rfl
      | some p => simp
    · rw [List.isPrefixOf_iff_prefix, hsep]
      intro hpre
      rw [List.cons_prefix_cons] at hpre
      exact hab hpre.1.symm

theorem containsSub_bfree (sep : Str) (t0 : Str) (hsep : sep = btick :: t0)
    (xs : Str) (hxs : btick ∉ xs) : containsSub sep xs = false := by
  have h := listSplitFirst_bfree sep t0 hsep xs [] hxs
  rw [List.append_nil] at h
  rw [containsSub, h, listSplitFirst_nil sep (by simp [hsep])]
  rfl

theorem afterFirst_eq_of (sep cs b a : Str) (h : listSplitFirst sep cs = some (b, a)) :
    afterFirst sep cs = a := by
  rw [afterFirst, h]

theorem pySplitGet0_eq_of (sep cs b a : Str) (h : listSplitFirst sep cs = some (b, a)) :
    pySplitGet0 sep cs = b := by
  rw [pySplitGet0, h]

theorem pySplitGet0_eq_self (sep cs : Str) (h : listSplitFirst sep cs = none) :
    pySplitGet0 sep cs = cs := by
  rw [pySplitGet0, h]

theorem pyStrip_cons_ws (c : Char) (xs : Str) (h : isPyWs c = true) :
    pyStrip (c :: xs) = pyStrip xs := by
  unfold pyStrip
  rw [List.dropWhile_cons, if_pos h]

theorem pyStrip_concat_ws (c : Char) (xs : Str) (h : isPyWs c = true) :
    pyStrip (xs ++ [c]) = pyStrip xs := by
  unfold pyStrip
  rw [List.dropWhile_append]
  by_cases he : (List.dropWhile isPyWs xs).isEmpty = true
  · rw [if_pos he]
    rw [List.isEmpty_iff] at he
    rw [he]
    simp [List.dropWhile_cons, h]
  · rw [if_neg he]
    rw [List.reverse_append]
    simp only [List.reverse_cons, List.reverse_nil, List.nil_append, List.singleton_append]
    rw [List.dropWhile_cons, if_pos h]

theorem pyStrip_eq_self (cs : Str)
    (h1 : ∀ c, cs.head? = some c → isPyWs c = false)
    (h2 : ∀ c, cs.getLast? = some c → isPyWs c = false) : pyStrip cs = cs := by
  unfold pyStrip
  have e1 : cs.dropWhile isPyWs = cs := by
    cases cs with
    | nil => rfl
    | cons a t =>
      rw [List.dropWhile_cons, if_neg]
      simp [h1 a rfl]
  rw [e1]
  have e2 : cs.reverse.dropWhile isPyWs = cs.reverse := by
    cases hrev : cs.reverse with
    | nil => rfl
    | cons a t =>
      rw [List.dropWhile_cons, if_neg]
      have hl : cs.getLast? = some a := by
        rw [← List.head?_reverse, hrev]
        rfl
      simp [h2 a hl]
  rw [e2, List.reverse_reverse]

theorem mem_pyStrip (a : Char) (xs : Str) (h : a ∈ pyStrip xs) : a ∈ xs := by
  unfold pyStrip at h
  rw [List.mem_reverse] at h
  have h2 := (List.dropWhile_sublist (l := (xs.dropWhile isPyWs).reverse)
    (p := isPyWs)).mem h
  rw [List.mem_reverse] at h2
  exact (List.dropWhile_sublist (l := xs) (p := isPyWs)).mem h2

/-- The interior segment both fence branches of `new_gradio.py` produce:
everything between the newline after the opening fence and the newline
before the closing fence, stripped. -/
theorem listSplitFirst_fence_interior (i : Str) (hi : btick ∉ i) :
    listSplitFirst "```".data (('\n' :: i) ++ "\n```".data) =
      some (('\n' :: i) ++ ['\n'], []) := by
  rw [listSplitFirst_bfree "```".data "``".data (by decide) ('\n' :: i)
      "\n```".data (by simp only [List.mem_cons, not_or]; exact ⟨by decide, hi⟩)]
  have hinner : listSplitFirst "```".data "\n```".data = some (['\n'], []) := by decide
  rw [hinner]
  rfl

theorem newGradioFence_tagged (i : Str) (hi : btick ∉ i) :
    newGradioFence ("```json\n".data ++ i ++ "\n```".data) = pyStrip i := by
  have harg : "```json\n".data ++ i ++ "\n```".data
      = "```json".data ++ (('\n' :: i) ++ "\n```".data) := by
    have hsplit : "```json\n".data = "```json".data ++ ['\n'] := by decide
    rw [hsplit]
    simp
  rw [harg]
  have hocc : listSplitFirst "```json".data
      ("```json".data ++ (('\n' :: i) ++ "\n```".data)) =
      some ([], ('\n' :: i) ++ "\n```".data) :=
    listSplitFirst_startsWith _ _ (by decide)
  have hcont : containsSub "```json".data
      ("```json".data ++ (('\n' :: i) ++ "\n```".data)) = true := by
    rw [containsSub, hocc]
    rfl
  have hnone : listSplitFirst "```json".data (('\n' :: i) ++ "\n```".data) = none := by
    rw [listSplitFirst_bfree "```json".data "``json".data (by decide) ('\n' :: i)
        "\n```".data (by simp only [List.mem_cons, not_or]; exact ⟨by decide, hi⟩)]
    have hinner : listSplitFirst "```json".data "\n```".data = none := by decide
    rw [hinner]
    rfl
  unfold newGradioFence
  rw [if_pos hcont, pySplitGet1,
      afterFirst_eq_of _ _ _ _ hocc,
      pySplitGet0_eq_self _ _ hnone,
      pySplitGet0_eq_of _ _ _ _ (listSplitFirst_fence_interior i hi)]
  have hstep : ('\n' :: i) ++ ['\n'] = '\n' :: (i ++ ['\n']) := by simp
  rw [hstep, pyStrip_cons_ws _ _ (by decide), pyStrip_concat_ws _ _ (by decide)]

theorem newGradioFence_bare (i : Str) (hi : btick ∉ i) :
    newGradioFence ("```\n".data ++ i ++ "\n```".data) = pyStrip i := by
  have harg : "```\n".data ++ i ++ "\n```".data
      = "```".data ++ (('\n' :: i) ++ "\n```".data) := by
    have hsplit : "```\n".data = "```".data ++ ['\n'] := by decide
    rw [hsplit]
    simp
  rw [harg]
  have hnoJ : listSplitFirst "```json".data
      ("```".data ++ (('\n' :: i) ++ "\n```".data)) = none := by
    have hjs : ("```".data : Str) ++ (('\n' :: i) ++ "\n```".data)
        = btick :: (btick :: (btick :: (('\n' :: i) ++ "\n```".data))) := by
      have : ("```".data : Str) = [btick, btick, btick] := by decide
      rw [this]
      rfl
    rw [hjs]
    have hnpre : ∀ x : Str, ("```json".data : Str).isPrefixOf ('\n' :: x) = false := by
      intro x
      have : ¬ ("```json".data : Str) <+: ('\n' :: x) := by
        intro hpre
        have hj : ("```json".data : Str) = btick :: "``json".data := by decide
        rw [hj, List.cons_prefix_cons] at hpre
        exact absurd hpre.1 (by decide)
      rw [Bool.eq_false_iff]
      intro hcontra
      exact this (List.isPrefixOf_iff_prefix.mp hcontra)
    have hstep : ∀ x : Str, btick ∉ x →
        listSplitFirst "```json".data (btick :: (btick :: (btick :: (('\n' :: x)
          ++ "\n```".data)))) = none := by
      intro x hx
      have hb3 : ("```json".data : Str).isPrefixOf
          (btick :: (btick :: (btick :: (('\n' :: x) ++ "\n```".data)))) = false := by
        have : ¬ ("```json".data : Str) <+:
            (btick :: (btick :: (btick :: (('\n' :: x) ++ "\n```".data)))) := by
          intro hpre
          have hj : ("```json".data : Str)
              = btick :: btick :: btick :: "json".data := by decide
          rw [hj, List.cons_prefix_cons, List.cons_prefix_cons,
              List.cons_prefix_cons] at hpre
          have h4 := hpre.2.2.2
          rw [List.cons_append] at h4
          have hjn : ("json".data : Str) = 'j' :: "son".data := by decide
          rw [hjn, List.cons_prefix_cons] at h4
          exact absurd h4.1 (by decide)
        rw [Bool.eq_false_iff]
        intro hcontra
        exact this (List.isPrefixOf_iff_prefix.mp hcontra)
      have hb2 : ("```json".data : Str).isPrefixOf
          (btick :: (btick :: (('\n' :: x) ++ "\n```".data))) = false := by
        have : ¬ ("```json".data : Str) <+:
            (btick :: (btick :: (('\n' :: x) ++ "\n```".data))) := by
          intro hpre
          have hj : ("```json".data : Str)
              = btick :: btick :: "`json".data := by decide
          rw [hj, List.cons_prefix_cons, List.cons_prefix_cons] at hpre
          have h3 := hpre.2.2
          rw [List.cons_append] at h3
          have hjn : ("`json".data : Str) = btick :: "json".data := by decide
          rw [hjn, List.cons_prefix_cons] at h3
          exact absurd h3.1 (by decide)
        rw [Bool.eq_false_iff]
        intro hcontra
        exact this (List.isPrefixOf_iff_prefix.mp hcontra)
      have hb1 : ("```json".data : Str).isPrefixOf
          (btick :: (('\n' :: x) ++ "\n```".data)) = false := by
        have : ¬ ("```json".data : Str) <+:
            (btick :: (('\n' :: x) ++ "\n```".data)) := by
          intro hpre
          have hj : ("```json".data : Str)
              = btick :: "``json".data := by decide
          rw [hj, List.cons_prefix_cons] at hpre
          have h2 := hpre.2
          rw [List.cons_append] at h2
          have hjn : ("``json".data : Str) = btick :: "`json".data := by decide
          rw [hjn, List.cons_prefix_cons] at h2
          exact absurd h2.1 (by decide)
        rw [Bool.eq_false_iff]
        intro hcontra
        exact this (List.isPrefixOf_iff_prefix.mp hcontra)
      rw [listSplitFirst_cons, hb3, if_neg (by simp),
          listSplitFirst_cons, hb2, if_neg (by simp),
          listSplitFirst_cons, hb1, if_neg (by simp)]
      have hrest : listSplitFirst "```json".data (('\n' :: x) ++ "\n```".data)
          = none := by
        rw [listSplitFirst_bfree "```json".data "``json".data (by decide)
            ('\n' :: x) "\n```".data (by simp only [List.mem_cons, not_or]; exact ⟨by decide, hx⟩)]
        have hinner : listSplitFirst "```json".data "\n```".data = none := by decide
        rw [hinner]
        rfl
      rw [hrest]
      rfl
    exact hstep i hi
  have hcontJ : containsSub "```json".data
      ("```".data ++ (('\n' :: i) ++ "\n```".data)) = false := by
    rw [containsSub, hnoJ]
    rfl
  have hocc : listSplitFirst "```".data
      ("```".data ++ (('\n' :: i) ++ "\n```".data)) =
      some ([], ('\n' :: i) ++ "\n```".data) :=
    listSplitFirst_startsWith _ _ (by decide)
  have hcont : containsSub "```".data
      ("```".data ++ (('\n' :: i) ++ "\n```".data)) = true := by
    rw [containsSub, hocc]
    rfl
  have hnone2 : listSplitFirst "```".data (('\n' :: i) ++ ['\n']) = none := by
    rw [listSplitFirst_bfree "```".data "``".data (by decide) ('\n' :: i)
        ['\n'] (by simp only [List.mem_cons, not_or]; exact ⟨by decide, hi⟩)]
    have hinner : listSplitFirst "```".data ['\n'] = none := by decide
    rw [hinner]
    rfl
  unfold newGradioFence
  rw [if_neg (by rw [hcontJ]; decide), if_pos hcont, pySplitGet1,
      afterFirst_eq_of _ _ _ _ hocc,
      pySplitGet0_eq_of _ _ _ _ (listSplitFirst_fence_interior i hi),
      pySplitGet0_eq_self _ _ hnone2]
  have hstep2 : ('\n' :: i) ++ ['\n'] = '\n' :: (i ++ ['\n']) := by simp
  rw [hstep2, pyStrip_cons_ws _ _ (by decide), pyStrip_concat_ws _ _ (by decide)]

theorem newGradioFence_nofence (x : Str) (hx : btick ∉ x) : newGradioFence x = x := by
  have h1 : containsSub "```json".data x = false :=
    containsSub_bfree _ "``json".data (by decide) x hx
  have h2 : containsSub "```".data x = false :=
    containsSub_bfree _ "``".data (by decide) x hx
  unfold newGradioFence
  rw [if_neg (by simp [h1]), if_neg (by simp [h2])]

theorem newGradioClean_tagged (i : Str) (hi : btick ∉ i) :
    newGradioClean ("```json\n".data ++ i ++ "\n```".data) = newGradioClean i := by
  unfold newGradioClean
  have hself : pyStrip ("```json\n".data ++ i ++ "\n```".data)
      = "```json\n".data ++ i ++ "\n```".data := by
    refine pyStrip_eq_self _ ?_ ?_
    · intro c hc
      have hcons : "```json\n".data ++ i ++ "\n```".data
          = btick :: ("``json\n".data ++ i ++ "\n```".data) := by
        have : ("```json\n".data : Str) = btick :: "``json\n".data := by decide
        rw [this]
        rfl
      rw [hcons] at hc
      simp only [List.head?_cons, Option.some.injEq] at hc
      rw [← hc]
      decide
    · intro c hc
      have hconc : "```json\n".data ++ i ++ "\n```".data
          = ("```json\n".data ++ i ++ "\n``".data) ++ [btick] := by
        have : ("\n```".data : Str) = "\n``".data ++ [btick] := by decide
        rw [this]
        simp
      rw [hconc, List.getLast?_concat] at hc
      simp only [Option.some.injEq] at hc
      rw [← hc]
      decide
  rw [hself, newGradioFence_tagged i hi,
      newGradioFence_nofence (pyStrip i) (fun h => hi (mem_pyStrip _ _ h))]

theorem newGradioClean_bare (i : Str) (hi : btick ∉ i) :
    newGradioClean ("```\n".data ++ i ++ "\n```".data) = newGradioClean i := by
  unfold newGradioClean
  have hself : pyStrip ("```\n".data ++ i ++ "\n```".data)
      = "```\n".data ++ i ++ "\n```".data := by
    refine pyStrip_eq_self _ ?_ ?_
    · intro c hc
      have hcons : "```\n".data ++ i ++ "\n```".data
          = btick :: ("``\n".data ++ i ++ "\n```".data) := by
        have : ("```\n".data : Str) = btick :: "``\n".data := by decide
        rw [this]
        rfl
      rw [hcons] at hc
      simp only [List.head?_cons, Option.some.injEq] at hc
      rw [← hc]
      decide
    · intro c hc
      have hconc : "```\n".data ++ i ++ "\n```".data
          = ("```\n".data ++ i ++ "\n``".data) ++ [btick] := by
        have : ("\n```".data : Str) = "\n``".data ++ [btick] := by decide
        rw [this]
        simp
      rw [hconc, List.getLast?_concat] at hc
      simp only [Option.some.injEq] at hc
      rw [← hc]
      decide
  rw [hself, newGradioFence_bare i hi,
      newGradioFence_nofence (pyStrip i) (fun h => hi (mem_pyStrip _ _ h))]

/-- C4, counterexample: wrap the Jane Doe object in an **untagged** fence —
still "a JSON object embedded between a leading fenced-code marker and a
trailing fenced-code marker" — and the `gradio_app.py` repair pass (which
strips only the exact ```` ```json ```` prefix) returns a parse failure,
while the fence-free interior parses directly to the object. -/
theorem c4_cex_untagged_fence_fails :
    pyJsonLoads "\x7b\"name\": \"Jane Doe\", \"title\": null\x7d".data
      = some janeObj ∧
    gradioAppRepair litFenceBare =
      .obj [(errKey, .str "Failed to parse VLM output as JSON.".data),
            (rawOutputKey, .str litFenceBare)] ∧
    lookupKey (gradioAppRepair litFenceBare) "name".data = none :=
  ⟨rfl, rfl, rfl⟩

/-- C4, amended: the fence property holds of the `new_gradio.py` variant,
with or without a language tag: for every backtick-free interior `i`, the
repair pass on the fence-wrapped input returns exactly what it returns on
the bare interior.  The `gradio_app.py` variant strips only the exact
```` ```json ````-tagged fence (an untagged fence is a parse failure there);
on the spec's tagged literal it does return the Jane Doe object, and
`new_gradio.py` returns it with its `_raw_ocr_text` diagnostic appended. -/
theorem c4_amended_fences (i ocr : Str) (hi : btick ∉ i) :
    (newGradioRepair ("```json\n".data ++ i ++ "\n```".data) ocr
      = newGradioRepair i ocr) ∧
    (newGradioRepair ("```\n".data ++ i ++ "\n```".data) ocr
      = newGradioRepair i ocr) ∧
    gradioAppRepair litFence = janeObj ∧
    newGradioRepair litFence ocr =
      .obj [("name".data, .str "Jane Doe".data), ("title".data, .null),
            ("_raw_ocr_text".data, .str ocr)] := by
  refine ⟨?_, ?_, rfl, rfl⟩
  · simp only [newGradioRepair, newGradioClean_tagged i hi]
  · simp only [newGradioRepair, newGradioClean_bare i hi]

/-- C4, witness: the amended fence equality evaluated at a concrete
backtick-free interior. -/
theorem c4_amended_witness :
    newGradioRepair ("```json\n".data ++ "\x7b\"k\": 1\x7d".data ++ "\n```".data)
        "W".data = newGradioRepair "\x7b\"k\": 1\x7d".data "W".data ∧
    newGradioRepair ("```\n".data ++ "\x7b\"k\": 1\x7d".data ++ "\n```".data)
        "W".data = newGradioRepair "\x7b\"k\": 1\x7d".data "W".data := by
  have h := c4_amended_fences "\x7b\"k\": 1\x7d".data "W".data (by decide)
  exact ⟨h.1, h.2.1⟩

/-- Appending one user/assistant exchange preserves alternation of an
even-length alternating role list. -/
theorem altFrom_user_append_pair :
    ∀ n rs, rs.length = n → rs.length % 2 = 0 → altFrom .user rs = true →
      altFrom .user (rs ++ [Role.user, Role.assistant]) = true := by
  intro n
  induction n using Nat.strong_induction_on with
  | _ n IH =>
    intro rs hlen hev halt
    match rs with
    | [] => rfl
    | [r] => simp at hev
    | r1 :: r2 :: rest =>
      simp only [altFrom, swapRole, Bool.and_eq_true, decide_eq_true_eq] at halt
      obtain ⟨h1, h2, h3⟩ := halt
      subst h1
      subst h2
      simp only [List.length_cons] at hlen hev
      have hrest : altFrom Role.user (rest ++ [Role.user, Role.assistant]) = true := by
        refine IH rest.length ?_ rest rfl ?_ ?_
        · omega
        · omega
        · simpa [swapRole] using h3
      simp [altFrom, swapRole, hrest]

/-- Along failure-free reachable conversations the length stays even and
alternation holds. -/
theorem chatReachableOk_alt :
    ∀ c, ChatReachableOk c → c.length % 2 = 0 ∧ conversationAlt c = true := by
  intro c h
  induction h with
  | refl => exact ⟨rfl, rfl⟩
  | tail _ hbc ih =>
    cases hbc with
    | skip => exact ih
    | exchange m r =>
      constructor
      · have h1 := ih.1
        simp only [List.length_append, List.length_cons, List.length_nil]
        omega
      · simp only [conversationAlt, List.map_append, List.map_cons, List.map_nil]
        exact altFrom_user_append_pair _ _ rfl
          (by simpa using ih.1) ih.2

/-- C8, counterexample: a conversation with two consecutive user turns is
reachable in the `chat_mode` loop — a user message is appended **before**
the inference call, and an exception during the call (caught by the
iteration's handler, which just prints and continues) leaves that user turn
unanswered — so strict user/assistant alternation is not an invariant of
every reachable state. -/
theorem c8_cex_two_user_turns :
    ChatReachable [⟨.user, .text "hi".data⟩, ⟨.user, .text "again".data⟩] ∧
    conversationAlt [⟨.user, .text "hi".data⟩, ⟨.user, .text "again".data⟩]
      = false := by
  constructor
  · have h1 : ChatStep [] [⟨.user, .text "hi".data⟩] :=
      ChatStep.inferFail [] (.text "hi".data)
    have h2 : ChatStep [⟨.user, .text "hi".data⟩]
        [⟨.user, .text "hi".data⟩, ⟨.user, .text "again".data⟩] :=
      ChatStep.inferFail [⟨.user, .text "hi".data⟩] (.text "again".data)
    exact Relation.ReflTransGen.tail
      (Relation.ReflTransGen.tail Relation.ReflTransGen.refl h1) h2
  · rfl

/-- C8, amended: the conversation list is append-only — every loop
iteration extends it, never modifies or removes — and it strictly
alternates user/assistant starting with a user turn **provided every
inference call succeeds**; a failed call leaves a trailing unanswered user
message, after which consecutive user turns occur. -/
theorem c8_append_only_and_alternation :
    (∀ c c', ChatStep c c' → ∃ t, c' = c ++ t) ∧
    (∀ c, ChatReachableOk c → conversationAlt c = true) := by
  constructor
  · intro c c' h
    cases h with
    | skip => exact ⟨[], by simp⟩
    | exchange m r => exact ⟨_, rfl⟩
    | inferFail m => exact ⟨_, rfl⟩
  · intro c h
    exact (chatReachableOk_alt c h).2

/-- C8, witness: one successful exchange extends the empty conversation and
alternates. -/
theorem c8_witness :
    (∃ t, ([⟨.user, .text "q".data⟩, ⟨.assistant, .text "a".data⟩] :
      List ChatMsg) = [] ++ t) ∧
    conversationAlt [⟨.user, .text "q".data⟩, ⟨.assistant, .text "a".data⟩]
      = true :=
  ⟨c8_append_only_and_alternation.1 [] _
      (ChatStep.exchange [] (.text "q".data) "a".data),
   c8_append_only_and_alternation.2 _
      (Relation.ReflTransGen.single (ChatStepOk.exchange [] (.text "q".data) "a".data))⟩

theorem digitsOfAux_congr :
    ∀ f g n, n ≤ f → n ≤ g → digitsOfAux f n = digitsOfAux g n := by
  intro f
  induction f using Nat.strong_induction_on with
  | _ f IH =>
    intro g n hf hg
    match f, g with
    | 0, 0 => rfl
    | 0, Nat.succ g =>
      interval_cases n
      simp [digitsOfAux]
    | Nat.succ f, 0 =>
      interval_cases n
      simp [digitsOfAux]
    | Nat.succ f, Nat.succ g =>
      by_cases h10 : n < 10
      · simp [digitsOfAux, h10]
      · simp only [digitsOfAux, if_neg h10]
        have hd : n / 10 < n := Nat.div_lt_self (by omega) (by omega)
        rw [IH f (by omega) g (n / 10) (by omega) (by omega)]

theorem digitsOf_small (n : Nat) (h : n < 10) : digitsOf n = [digitChar n] := by
  match n with
  | 0 => rfl
  | Nat.succ m => simp [digitsOf, digitsOfAux, h]

theorem digitsOf_large (n : Nat) (h : 10 ≤ n) :
    digitsOf n = digitsOf (n / 10) ++ [digitChar (n % 10)] := by
  obtain ⟨m, rfl⟩ : ∃ m, n = m + 1 := ⟨n - 1, by omega⟩
  show digitsOfAux (m + 1) (m + 1) = _
  simp only [digitsOfAux]
  rw [if_neg (by omega), digitsOf,
    digitsOfAux_congr m ((m + 1) / 10) ((m + 1) / 10) (by omega) le_rfl]

theorem digitChar_toNat (d : Nat) (h : d ≤ 9) : (digitChar d).toNat = 48 + d := by
  interval_cases d <;> decide

theorem isDigit_digitChar (d : Nat) (h : d ≤ 9) : isDigit (digitChar d) = true := by
  interval_cases d <;> decide

theorem digitVal_digitChar (d : Nat) (h : d ≤ 9) : digitVal (digitChar d) = d := by
  interval_cases d <;> decide

theorem digitChar_ne_zeroChar (d : Nat) (h1 : 1 ≤ d) (h2 : d ≤ 9) :
    digitChar d ≠ '0' := by
  interval_cases d <;> decide

theorem digitsOf_all_digits : ∀ n c, c ∈ digitsOf n → isDigit c = true := by
  intro n
  induction n using Nat.strong_induction_on with
  | _ n IH =>
    intro c hc
    by_cases h10 : n < 10
    · rw [digitsOf_small n h10] at hc
      simp only [List.mem_singleton] at hc
      subst hc
      exact isDigit_digitChar n (by omega)
    · rw [digitsOf_large n (by omega)] at hc
      rcases List.mem_append.mp hc with h | h
      · exact IH (n / 10) (Nat.div_lt_self (by omega) (by omega)) c h
      · simp only [List.mem_singleton] at h
        subst h
        exact isDigit_digitChar (n % 10) (by omega)

theorem digitsOf_head :
    ∀ n, ∃ c t, digitsOf n = c :: t ∧ isDigit c = true ∧ (1 ≤ n → c ≠ '0') := by
  intro n
  induction n using Nat.strong_induction_on with
  | _ n IH =>
    by_cases h10 : n < 10
    · refine ⟨digitChar n, [], digitsOf_small n h10, isDigit_digitChar n (by omega), ?_⟩
      intro h1
      exact digitChar_ne_zeroChar n h1 (by omega)
    · obtain ⟨c, t, he, hd, hz⟩ := IH (n / 10) (Nat.div_lt_self (by omega) (by omega))
      refine ⟨c, t ++ [digitChar (n % 10)], ?_, hd, ?_⟩
      · rw [digitsOf_large n (by omega), he]
        rfl
      · intro _
        exact hz (by omega)

theorem valFold_append (a : Nat) (xs ys : Str) :
    valFold a (xs ++ ys) = valFold (valFold a xs) ys := by
  induction xs generalizing a with
  | nil => rfl
  | cons c xs ih => exact ih (a * 10 + digitVal c)

theorem valFold_digitsOf :
    ∀ n a, valFold a (digitsOf n) = a * 10 ^ (digitsOf n).length + n := by
  intro n
  induction n using Nat.strong_induction_on with
  | _ n IH =>
    intro a
    by_cases h10 : n < 10
    · rw [digitsOf_small n h10]
      have h1 : valFold a [digitChar n] = a * 10 + digitVal (digitChar n) := rfl
      rw [h1, digitVal_digitChar n (by omega), List.length_singleton, pow_one]
    · rw [digitsOf_large n (by omega), valFold_append,
        IH (n / 10) (Nat.div_lt_self (by omega) (by omega)) a]
      have h1 : valFold (a * 10 ^ (digitsOf (n / 10)).length + n / 10)
          [digitChar (n % 10)]
          = (a * 10 ^ (digitsOf (n / 10)).length + n / 10) * 10
            + digitVal (digitChar (n % 10)) := rfl
      rw [h1, digitVal_digitChar (n % 10) (by omega), List.length_append,
        List.length_singleton, pow_succ]
      have key : n / 10 * 10 + n % 10 = n := by omega
      rw [add_mul, mul_assoc, Nat.add_assoc, key]

theorem takeDigitsAcc_all_digits (xs : Str) (hxs : ∀ c ∈ xs, isDigit c = true) :
    ∀ a ys, takeDigitsAcc a (xs ++ ys) = takeDigitsAcc (valFold a xs) ys := by
  induction xs with
  | nil => intro a ys; rfl
  | cons c xs ih =>
    intro a ys
    rw [List.cons_append, takeDigitsAcc, if_pos (hxs c (by simp))]
    exact ih (fun d hd => hxs d (by simp [hd])) _ ys

theorem takeDigitsAcc_delim (a : Nat) (ys : Str) (h : Delim ys) :
    takeDigitsAcc a ys = (a, ys) := by
  cases ys with
  | nil => rfl
  | cons c t =>
    rw [takeDigitsAcc, if_neg]
    simp only [Delim] at h
    simp [h]

theorem parseNatTok_digits (n : Nat) (rest : Str) (h : Delim rest) :
    parseNatTok (digitsOf n ++ rest) = some (n, rest) := by
  by_cases h0 : n = 0
  · subst h0
    rw [digitsOf_small 0 (by omega)]
    show parseNatTok ('0' :: rest) = _
    rw [parseNatTok, if_pos rfl]
  · obtain ⟨c, t, he, hd, hz⟩ := digitsOf_head n
    rw [he, List.cons_append, parseNatTok, if_neg, if_pos hd]
    · have hdt : ∀ d ∈ t, isDigit d = true := by
        intro d hdm
        exact digitsOf_all_digits n d (by rw [he]; simp [hdm])
      rw [takeDigitsAcc_all_digits t hdt, takeDigitsAcc_delim _ _ h]
      have hv : valFold (digitVal c) t = n := by
        have h1 : valFold 0 (digitsOf n) = n := by
          rw [valFold_digitsOf n 0]
          omega
        rw [he] at h1
        have h2 : valFold 0 (c :: t) = valFold (digitVal c) t := by
          show valFold (0 * 10 + digitVal c) t = valFold (digitVal c) t
          rw [Nat.zero_mul, Nat.zero_add]
        rw [h2] at h1
        exact h1
      rw [hv]
    · exact hz (by omega)

theorem parseNumTok_ser (n : Int) (rest : Str) (h : Delim rest) :
    parseNumTok (serInt n ++ rest) = some (n, rest) := by
  by_cases hneg : n < 0
  · rw [serInt, if_pos hneg, List.cons_append, parseNumTok, if_pos rfl,
      parseNatTok_digits n.natAbs rest h]
    simp only [Option.map_some']
    have hval : -((n.natAbs : Nat) : Int) = n := by omega
    rw [hval]
  · rw [serInt, if_neg hneg]
    obtain ⟨c, t, he, hd, _⟩ := digitsOf_head n.toNat
    have hcm : c ≠ '-' := by
      intro hc
      subst hc
      simp [isDigit] at hd
    rw [he, List.cons_append, parseNumTok, if_neg hcm, ← List.cons_append, ← he,
      parseNatTok_digits n.toNat rest h]
    simp only [Option.map_some']
    have hval : ((n.toNat : Nat) : Int) = n := by omega
    rw [hval]

theorem escChar_spec (c : Char) :
    (∃ e, escChar c = ['\\', e] ∧ unescape e = some c) ∨
    (escChar c = [c] ∧ c ≠ '"' ∧ c ≠ '\\' ∧
      ((32 ≤ c.toNat ∨ c = '\n' ∨ c = '\t' ∨ c = '\r' ∨ c = Char.ofNat 8 ∨
        c = Char.ofNat 12) → 32 ≤ c.toNat)) := by
  by_cases h1 : c = '"'
  · exact Or.inl ⟨'"', by subst h1; decide, by subst h1; decide⟩
  by_cases h2 : c = '\\'
  · exact Or.inl ⟨'\\', by subst h2; decide, by subst h2; decide⟩
  by_cases h3 : c = '\n'
  · exact Or.inl ⟨'n', by subst h3; decide, by subst h3; decide⟩
  by_cases h4 : c = '\t'
  · exact Or.inl ⟨'t', by subst h4; decide, by subst h4; decide⟩
  by_cases h5 : c = '\r'
  · exact Or.inl ⟨'r', by subst h5; decide, by subst h5; decide⟩
  by_cases h6 : c = Char.ofNat 8
  · exact Or.inl ⟨'b', by subst h6; decide, by subst h6; decide⟩
  by_cases h7 : c = Char.ofNat 12
  · exact Or.inl ⟨'f', by subst h7; decide, by subst h7; decide⟩
  refine Or.inr ⟨?_, h1, h2, ?_⟩
  · rw [escChar, if_neg h1, if_neg h2, if_neg h3, if_neg h4, if_neg h5,
      if_neg h6, if_neg h7]
  · intro hd
    rcases hd with h | h | h | h | h | h
    · exact h
    · exact absurd h h3
    · exact absurd h h4
    · exact absurd h h5
    · exact absurd h h6
    · exact absurd h h7

theorem parseStrBody_nil : parseStrBody [] = none := by
  rw [parseStrBody.eq_def]

theorem parseStrBody_cons (c : Char) (rest : Str) :
    parseStrBody (c :: rest) =
      (if c = '"' then some ([], rest)
       else if c = '\\' then
         (match rest with
          | [] => none
          | e :: rest2 =>
            match unescape e with
            | none => none
            | some d => (parseStrBody rest2).map (fun p => (d :: p.1, p.2)))
       else if c.toNat < 32 then none
       else (parseStrBody rest).map (fun p => (c :: p.1, p.2))) := by
  rw [parseStrBody.eq_def]
  rfl

theorem parseStrBody_esc_step (c e : Char) (X : Str) (hu : unescape e = some c) :
    parseStrBody ('\\' :: e :: X) = (parseStrBody X).map (fun p => (c :: p.1, p.2)) := by
  rw [parseStrBody_cons, if_neg (by decide), if_pos rfl]
  show (match unescape e with
        | none => none
        | some d => (parseStrBody X).map (fun p : Str × Str => (d :: p.1, p.2))) = _
  rw [hu]

theorem parseStrBody_escStr :
    ∀ s, StrOk s → ∀ rest, parseStrBody (escStr s ++ '"' :: rest) = some (s, rest) := by
  intro s
  induction s with
  | nil =>
    intro _ rest
    show parseStrBody ('"' :: rest) = _
    rw [parseStrBody_cons, if_pos rfl]
  | cons c s ih =>
    intro hok rest
    have hos : StrOk s := fun d hd => hok d (by simp [hd])
    have hoc := hok c (by simp)
    show parseStrBody ((escChar c ++ escStr s) ++ '"' :: rest) = _
    rcases escChar_spec c with ⟨e, hesc, hu⟩ | ⟨hesc, hne1, hne2, hge⟩
    · have hshape : (escChar c ++ escStr s) ++ '"' :: rest
          = '\\' :: e :: (escStr s ++ '"' :: rest) := by
        rw [hesc]
        rfl
      rw [hshape, parseStrBody_esc_step c e _ hu, ih hos rest]
      rfl
    · have hshape : (escChar c ++ escStr s) ++ '"' :: rest
          = c :: (escStr s ++ '"' :: rest) := by
        rw [hesc]
        rfl
      rw [hshape, parseStrBody_cons, if_neg hne1, if_neg hne2,
        if_neg (by have := hge hoc; omega), ih hos rest]
      rfl

theorem unescape_char_ok (e c : Char) (hu : unescape e = some c) :
    32 ≤ c.toNat ∨ c = '\n' ∨ c = '\t' ∨ c = '\r' ∨ c = Char.ofNat 8 ∨
      c = Char.ofNat 12 := by
  unfold unescape at hu
  split_ifs at hu <;> simp only [Option.some.injEq] at hu <;> subst hu
  · exact Or.inl (by decide)
  · exact Or.inl (by decide)
  · exact Or.inl (by decide)
  · exact Or.inr (Or.inl rfl)
  · exact Or.inr (Or.inr (Or.inl rfl))
  · exact Or.inr (Or.inr (Or.inr (Or.inl rfl)))
  · exact Or.inr (Or.inr (Or.inr (Or.inr (Or.inl rfl))))
  · exact Or.inr (Or.inr (Or.inr (Or.inr (Or.inr rfl))))

theorem parseStrBody_strOk :
    ∀ n cs, cs.length ≤ n → ∀ s r, parseStrBody cs = some (s, r) → StrOk s := by
  intro n
  induction n with
  | zero =>
    intro cs hlen s r h
    cases cs with
    | nil =>
      rw [parseStrBody_nil] at h
      exact absurd h (by simp)
    | cons c rest => simp at hlen
  | succ n IH =>
    intro cs hlen s r h
    cases cs with
    | nil =>
      rw [parseStrBody_nil] at h
      exact absurd h (by simp)
    | cons c rest =>
      rw [parseStrBody_cons] at h
      by_cases h1 : c = '"'
      · rw [if_pos h1] at h
        simp only [Option.some.injEq, Prod.mk.injEq] at h
        rw [← h.1]
        intro d hd
        simp at hd
      · rw [if_neg h1] at h
        by_cases h2 : c = '\\'
        · rw [if_pos h2] at h
          cases rest with
          | nil =>
            replace h : (none : Option (Str × Str)) = some (s, r) := h
            exact absurd h (by simp)
          | cons e rest2 =>
            replace h : (match unescape e with
              | none => none
              | some d => (parseStrBody rest2).map (fun p => (d :: p.1, p.2)))
                = some (s, r) := h
            cases hu : unescape e with
            | none =>
              rw [hu] at h
              replace h : (none : Option (Str × Str)) = some (s, r) := h
              exact absurd h (by simp)
            | some d =>
              rw [hu] at h
              replace h : (parseStrBody rest2).map (fun p => (d :: p.1, p.2))
                = some (s, r) := h
              simp only [Option.map_eq_some'] at h
              obtain ⟨p, hp, hpe⟩ := h
              have hps : StrOk p.1 := by
                refine IH rest2 ?_ p.1 p.2 ?_
                · simp only [List.length_cons] at hlen
                  omega
                · rw [hp]
              obtain ⟨hs, -⟩ := Prod.mk.injEq .. |>.mp hpe
              rw [← hs]
              intro x hx
              rcases List.mem_cons.mp hx with hx | hx
              · subst hx
                exact unescape_char_ok e x hu
              · exact hps x hx
        · rw [if_neg h2] at h
          by_cases h3 : c.toNat < 32
          · rw [if_pos h3] at h
            exact absurd h (by simp)
          · rw [if_neg h3] at h
            simp only [Option.map_eq_some'] at h
            obtain ⟨p, hp, hpe⟩ := h
            have hps : StrOk p.1 := by
              refine IH rest ?_ p.1 p.2 ?_
              · simp only [List.length_cons] at hlen
                omega
              · rw [hp]
            obtain ⟨hs, -⟩ := Prod.mk.injEq .. |>.mp hpe
            rw [← hs]
            intro x hx
            rcases List.mem_cons.mp hx with hx | hx
            · subst hx
              exact Or.inl (by omega)
            · exact hps x hx

theorem isPrefixOf_false_head (a b : Char) (s t : Str) (h : a ≠ b) :
    (a :: s).isPrefixOf (b :: t) = false := by
  rw [Bool.eq_false_iff]
  intro hc
  rw [List.isPrefixOf_iff_prefix, List.cons_prefix_cons] at hc
  exact h hc.1

theorem isDigit_char_facts (c : Char) (hc : isDigit c = true) :
    c ≠ 'n' ∧ c ≠ 't' ∧ c ≠ 'f' ∧ c ≠ '"' ∧ c ≠ lbrace ∧ c ≠ '[' ∧ c ≠ '-' ∧
      c ≠ ']' ∧ c ≠ btick ∧ isJsonWs c = false ∧ isPyWs c = false := by
  have hb : 48 ≤ c.toNat ∧ c.toNat ≤ 57 := by
    simpa [isDigit] using hc
  refine ⟨?_, ?_, ?_, ?_, ?_, ?_, ?_, ?_, ?_, ?_, ?_⟩
  · intro h; rw [h] at hb; exact absurd hb (by decide)
  · intro h; rw [h] at hb; exact absurd hb (by decide)
  · intro h; rw [h] at hb; exact absurd hb (by decide)
  · intro h; rw [h] at hb; exact absurd hb (by decide)
  · intro h; rw [h] at hb; exact absurd hb (by decide)
  · intro h; rw [h] at hb; exact absurd hb (by decide)
  · intro h; rw [h] at hb; exact absurd hb (by decide)
  · intro h; rw [h] at hb; exact absurd hb (by decide)
  · intro h; rw [h] at hb; exact absurd hb (by decide)
  · rw [Bool.eq_false_iff]
    intro hw
    simp only [isJsonWs, Bool.or_eq_true, decide_eq_true_eq] at hw
    rcases hw with ((h | h) | h) | h <;> (rw [h] at hb; exact absurd hb (by decide))
  · rw [Bool.eq_false_iff]
    intro hw
    simp only [isPyWs, Bool.or_eq_true, decide_eq_true_eq] at hw
    rcases hw with ((((h | h) | h) | h) | h) | h
    · rw [h] at hb; exact absurd hb (by decide)
    · rw [h] at hb; exact absurd hb (by decide)
    · rw [h] at hb; exact absurd hb (by decide)
    · rw [h] at hb; exact absurd hb (by decide)
    · omega
    · omega

theorem skipWs_cons_not_ws (c : Char) (x : Str) (h : isJsonWs c = false) :
    skipWs (c :: x) = c :: x := by
  rw [skipWs, List.dropWhile_cons, if_neg]
  simp [h]

theorem skipWs_ws_pad (pre : Str) (hp : WsOnly pre) (x : Str) :
    skipWs (pre ++ x) = skipWs x := by
  induction pre with
  | nil => rfl
  | cons c p ih =>
    rw [List.cons_append, skipWs, List.dropWhile_cons,
      if_pos (hp c (by simp))]
    exact ih (fun d hd => hp d (by simp [hd]))

theorem digitsOf_concat_form (n : Nat) :
    ∃ D c, digitsOf n = D ++ [c] ∧ isDigit c = true := by
  by_cases h10 : n < 10
  · exact ⟨[], digitChar n, by rw [digitsOf_small n h10]; rfl,
      isDigit_digitChar n (by omega)⟩
  · exact ⟨digitsOf (n / 10), digitChar (n % 10), digitsOf_large n (by omega),
      isDigit_digitChar (n % 10) (by omega)⟩

theorem serVal_head_spec (v : JsonVal) :
    ∃ c t, serVal v = c :: t ∧ isJsonWs c = false ∧ isPyWs c = false ∧
      c ≠ ']' ∧ c ≠ btick := by
  cases v with
  | null =>
    refine ⟨'n', "ull".data, ?_, by decide, by decide, by decide, by decide⟩
    simp only [serVal]
  | bool b =>
    cases b with
    | true =>
      refine ⟨'t', "rue".data, ?_, by decide, by decide, by decide, by decide⟩
      simp only [serVal]
    | false =>
      refine ⟨'f', "alse".data, ?_, by decide, by decide, by decide, by decide⟩
      simp only [serVal]
  | num n =>
    by_cases hneg : n < 0
    · refine ⟨'-', digitsOf n.natAbs, ?_, by decide, by decide, by decide, by decide⟩
      simp only [serVal, serInt, if_pos hneg]
    · obtain ⟨c, t, he, hd, -⟩ := digitsOf_head n.toNat
      obtain ⟨-, -, -, -, -, -, -, h8, h9, h10, h11⟩ := isDigit_char_facts c hd
      refine ⟨c, t, ?_, h10, h11, h8, h9⟩
      rw [serVal, serInt, if_neg hneg]
      exact he
  | str s =>
    refine ⟨'"', escStr s ++ ['"'], ?_, by decide, by decide, by decide, by decide⟩
    simp only [serVal]
    rfl
  | arr l =>
    cases l with
    | nil =>
      refine ⟨'[', [']'], ?_, by decide, by decide, by decide, by decide⟩
      simp only [serVal]
    | cons v rest =>
      refine ⟨'[', (serVal v ++ serListTail rest) ++ [']'], ?_, by decide,
        by decide, by decide, by decide⟩
      simp only [serVal]
      rfl
  | obj kvs =>
    cases kvs with
    | nil =>
      refine ⟨lbrace, [rbrace], ?_, by decide, by decide, by decide, by decide⟩
      simp only [serVal]
    | cons kv rest =>
      obtain ⟨k, v⟩ := kv
      refine ⟨lbrace, ('"' :: escStr k ++ '"' :: ':' :: ' ' :: serVal v
          ++ serKvsTail rest) ++ [rbrace], ?_, by decide, by decide, by decide,
        by decide⟩
      simp only [serVal]
      rfl

theorem serVal_last_spec (v : JsonVal) :
    ∃ c, (serVal v).getLast? = some c ∧ isPyWs c = false := by
  cases v with
  | null =>
    refine ⟨'l', ?_, by decide⟩
    simp only [serVal]
    decide
  | bool b =>
    cases b with
    | true =>
      refine ⟨'e', ?_, by decide⟩
      simp only [serVal]
      decide
    | false =>
      refine ⟨'e', ?_, by decide⟩
      simp only [serVal]
      decide
  | num n =>
    by_cases hneg : n < 0
    · obtain ⟨D, c, he, hd⟩ := digitsOf_concat_form n.natAbs
      refine ⟨c, ?_, (isDigit_char_facts c hd).2.2.2.2.2.2.2.2.2.2⟩
      rw [serVal, serInt, if_pos hneg, he]
      rw [show '-' :: (D ++ [c]) = ('-' :: D) ++ [c] from rfl, List.getLast?_concat]
    · obtain ⟨D, c, he, hd⟩ := digitsOf_concat_form n.toNat
      refine ⟨c, ?_, (isDigit_char_facts c hd).2.2.2.2.2.2.2.2.2.2⟩
      rw [serVal, serInt, if_neg hneg, he, List.getLast?_concat]
  | str s =>
    refine ⟨'"', ?_, by decide⟩
    rw [serVal]
    rw [show ('"' :: escStr s ++ ['"'] : Str) = ('"' :: escStr s) ++ ['"'] from rfl,
      List.getLast?_concat]
  | arr l =>
    cases l with
    | nil =>
      refine ⟨']', ?_, by decide⟩
      simp only [serVal]
      decide
    | cons v rest =>
      refine ⟨']', ?_, by decide⟩
      rw [serVal]
      rw [show ('[' :: (serVal v ++ serListTail rest) ++ [']'] : Str)
          = ('[' :: (serVal v ++ serListTail rest)) ++ [']'] from rfl,
        List.getLast?_concat]
  | obj kvs =>
    cases kvs with
    | nil =>
      refine ⟨rbrace, ?_, by decide⟩
      simp only [serVal]
      decide
    | cons kv rest =>
      obtain ⟨k, v⟩ := kv
      refine ⟨rbrace, ?_, by decide⟩
      rw [serVal]
      rw [show (lbrace :: ('"' :: escStr k ++ '"' :: ':' :: ' ' :: serVal v
            ++ serKvsTail rest) ++ [rbrace] : Str)
          = (lbrace :: ('"' :: escStr k ++ '"' :: ':' :: ' ' :: serVal v
            ++ serKvsTail rest)) ++ [rbrace] from rfl,
        List.getLast?_concat]

theorem parseStep_val_eq (f : Nat) (cs0 : Str) :
    parseStep (Nat.succ f) .val cs0 =
      (if "null".data.isPrefixOf (skipWs cs0) then some (.null, (skipWs cs0).drop 4)
       else if "true".data.isPrefixOf (skipWs cs0) then
         some (.bool true, (skipWs cs0).drop 4)
       else if "false".data.isPrefixOf (skipWs cs0) then
         some (.bool false, (skipWs cs0).drop 5)
       else
         match skipWs cs0 with
         | [] => none
         | c :: rest =>
           if c = '"' then
             (parseStrBody rest).map (fun p : Str × Str => (JsonVal.str p.1, p.2))
           else if c = lbrace then
             match skipWs rest with
             | [] => none
             | c2 :: rest2 =>
               if c2 = rbrace then some (JsonVal.obj [], rest2)
               else parseStep f (.members []) (c2 :: rest2)
           else if c = '[' then
             match skipWs rest with
             | [] => none
             | c2 :: rest2 =>
               if c2 = ']' then some (JsonVal.arr [], rest2)
               else parseStep f (.elems []) (c2 :: rest2)
           else (parseNumTok (c :: rest)).map
             (fun p : Int × Str => (JsonVal.num p.1, p.2))) := by
  rw [parseStep.eq_def]

theorem parseStep_elems_eq (f : Nat) (acc : List JsonVal) (cs : Str) :
    parseStep (Nat.succ f) (.elems acc) cs =
      (match parseStep f .val cs with
       | none => none
       | some (v, r1) =>
         match skipWs r1 with
         | [] => none
         | c2 :: r2 =>
           if c2 = ',' then parseStep f (.elems (acc ++ [v])) r2
           else if c2 = ']' then some (JsonVal.arr (acc ++ [v]), r2)
           else none) := by
  rw [parseStep.eq_def]

theorem parseStep_members_eq (f : Nat) (acc : List (Str × JsonVal)) (cs : Str) :
    parseStep (Nat.succ f) (.members acc) cs =
      (match skipWs cs with
       | [] => none
       | c :: rest =>
         if c = '"' then
           match parseStrBody rest with
           | none => none
           | some (k, r1) =>
             match skipWs r1 with
             | [] => none
             | c2 :: r2 =>
               if c2 = ':' then
                 match parseStep f .val r2 with
                 | none => none
                 | some (v, r3) =>
                   match skipWs r3 with
                   | [] => none
                   | c3 :: r4 =>
                     if c3 = ',' then parseStep f (.members (insertKey acc k v)) r4
                     else if c3 = rbrace then
                       some (JsonVal.obj (insertKey acc k v), r4)
                     else none
               else none
         else none) := by
  rw [parseStep.eq_def]

theorem parseStep_zero (m : PMode) (cs : Str) : parseStep 0 m cs = none := by
  rw [parseStep.eq_def]

theorem serVal_length_pos (v : JsonVal) : 1 ≤ (serVal v).length := by
  obtain ⟨c, t, he, -⟩ := serVal_head_spec v
  rw [he]
  simp

theorem mem_insertKey (acc : List (Str × JsonVal)) (k : Str) (v : JsonVal)
    (kv : Str × JsonVal) (h : kv ∈ insertKey acc k v) : kv ∈ acc ∨ kv = (k, v) := by
  induction acc with
  | nil =>
    simp only [insertKey, List.mem_singleton] at h
    exact Or.inr h
  | cons hd rest ih =>
    obtain ⟨k', v'⟩ := hd
    rw [insertKey] at h
    by_cases hk : k' = k
    · rw [if_pos hk] at h
      rcases List.mem_cons.mp h with h | h
      · exact Or.inr h
      · exact Or.inl (List.mem_cons.mpr (Or.inr h))
    · rw [if_neg hk] at h
      rcases List.mem_cons.mp h with h | h
      · exact Or.inl (List.mem_cons.mpr (Or.inl h))
      · rcases ih h with h | h
        · exact Or.inl (List.mem_cons.mpr (Or.inr h))
        · exact Or.inr h

theorem keys_insertKey (acc : List (Str × JsonVal)) (k : Str) (v : JsonVal) :
    (insertKey acc k v).map Prod.fst =
      if k ∈ acc.map Prod.fst then acc.map Prod.fst
      else acc.map Prod.fst ++ [k] := by
  induction acc with
  | nil => rfl
  | cons hd rest ih =>
    obtain ⟨k', v'⟩ := hd
    rw [insertKey]
    by_cases hk : k' = k
    · rw [if_pos hk]
      subst hk
      simp only [List.map_cons]
      rw [if_pos (List.mem_cons_self _ _)]
    · rw [if_neg hk]
      simp only [List.map_cons, ih]
      by_cases hm : k ∈ rest.map Prod.fst
      · rw [if_pos hm, if_pos (by simp [hm])]
      · rw [if_neg hm, if_neg (by simp [hm, Ne.symm hk])]
        rfl

theorem insertKey_nodup (acc : List (Str × JsonVal)) (k : Str) (v : JsonVal)
    (hnd : (acc.map Prod.fst).Nodup) :
    ((insertKey acc k v).map Prod.fst).Nodup := by
  rw [keys_insertKey]
  by_cases hm : k ∈ acc.map Prod.fst
  · rw [if_pos hm]
    exact hnd
  · rw [if_neg hm]
    simp [List.nodup_append, hnd, hm]

theorem parseStep_valOk :
    ∀ f,
      (∀ cs v r, parseStep f .val cs = some (v, r) → ValOk v) ∧
      (∀ acc cs v r, parseStep f (.elems acc) cs = some (v, r) →
        (∀ w ∈ acc, ValOk w) → ValOk v) ∧
      (∀ acc cs v r, parseStep f (.members acc) cs = some (v, r) →
        (∀ kv ∈ acc, StrOk kv.1) → (∀ kv ∈ acc, ValOk kv.2) →
        (acc.map Prod.fst).Nodup → ValOk v) := by
  intro f
  induction f using Nat.strong_induction_on with
  | _ f IH =>
    match f with
    | 0 =>
      refine ⟨?_, ?_, ?_⟩
      · intro cs v r h
        rw [parseStep_zero] at h
        exact Option.noConfusion h
      · intro acc cs v r h _
        rw [parseStep_zero] at h
        exact Option.noConfusion h
      · intro acc cs v r h _ _ _
        rw [parseStep_zero] at h
        exact Option.noConfusion h
    | Nat.succ g =>
      have IHv := (IH g (by omega)).1
      have IHe := (IH g (by omega)).2.1
      have IHm := (IH g (by omega)).2.2
      refine ⟨?_, ?_, ?_⟩
      · intro cs v r h
        rw [parseStep_val_eq] at h
        by_cases h1 : "null".data.isPrefixOf (skipWs cs) = true
        · rw [if_pos h1] at h
          simp only [Option.some.injEq, Prod.mk.injEq] at h
          exact h.1 ▸ ValOk.null
        · rw [if_neg h1] at h
          by_cases h2 : "true".data.isPrefixOf (skipWs cs) = true
          · rw [if_pos h2] at h
            simp only [Option.some.injEq, Prod.mk.injEq] at h
            exact h.1 ▸ ValOk.bool true
          · rw [if_neg h2] at h
            by_cases h3 : "false".data.isPrefixOf (skipWs cs) = true
            · rw [if_pos h3] at h
              simp only [Option.some.injEq, Prod.mk.injEq] at h
              exact h.1 ▸ ValOk.bool false
            · rw [if_neg h3] at h
              cases hcs : skipWs cs with
              | nil =>
                rw [hcs] at h
                simp only [] at h
                exact Option.noConfusion h
              | cons c rest =>
                rw [hcs] at h
                simp only [] at h
                by_cases hq : c = '"'
                · rw [if_pos hq] at h
                  simp only [Option.map_eq_some'] at h
                  obtain ⟨p, hp, hpe⟩ := h
                  have hsok : StrOk p.1 :=
                    parseStrBody_strOk rest.length rest le_rfl p.1 p.2 (by rw [hp])
                  have hv : JsonVal.str p.1 = v := (Prod.mk.injEq .. |>.mp hpe).1
                  exact hv ▸ ValOk.str p.1 hsok
                · rw [if_neg hq] at h
                  by_cases hb : c = lbrace
                  · rw [if_pos hb] at h
                    cases hsk : skipWs rest with
                    | nil =>
                      rw [hsk] at h
                      simp only [] at h
                      exact Option.noConfusion h
                    | cons c2 rest2 =>
                      rw [hsk] at h
                      simp only [] at h
                      by_cases hrb : c2 = rbrace
                      · rw [if_pos hrb] at h
                        simp only [Option.some.injEq, Prod.mk.injEq] at h
                        exact h.1 ▸ ValOk.obj [] (by simp) (by simp) (by simp)
                      · rw [if_neg hrb] at h
                        exact IHm [] (c2 :: rest2) v r h (by simp) (by simp) (by simp)
                  · by_cases ha : c = '['
                    · rw [if_neg hb, if_pos ha] at h
                      cases hsk : skipWs rest with
                      | nil =>
                        rw [hsk] at h
                        simp only [] at h
                        exact Option.noConfusion h
                      | cons c2 rest2 =>
                        rw [hsk] at h
                        simp only [] at h
                        by_cases hrb : c2 = ']'
                        · rw [if_pos hrb] at h
                          simp only [Option.some.injEq, Prod.mk.injEq] at h
                          exact h.1 ▸ ValOk.arr [] (by simp)
                        · rw [if_neg hrb] at h
                          exact IHe [] (c2 :: rest2) v r h (by simp)
                    · rw [if_neg hb, if_neg ha] at h
                      simp only [Option.map_eq_some'] at h
                      obtain ⟨p, hp, hpe⟩ := h
                      have hv : JsonVal.num p.1 = v := (Prod.mk.injEq .. |>.mp hpe).1
                      exact hv ▸ ValOk.num p.1
      · intro acc cs v r h hacc
        rw [parseStep_elems_eq] at h
        cases hpv : parseStep g .val cs with
        | none =>
          rw [hpv] at h
          simp only [] at h
          exact Option.noConfusion h
        | some pr =>
          obtain ⟨w, r1⟩ := pr
          rw [hpv] at h
          simp only [] at h
          have hw : ValOk w := IHv cs w r1 hpv
          cases hsk : skipWs r1 with
          | nil =>
            rw [hsk] at h
            simp only [] at h
            exact Option.noConfusion h
          | cons c2 r2 =>
            rw [hsk] at h
            simp only [] at h
            by_cases hc : c2 = ','
            · rw [if_pos hc] at h
              refine IHe (acc ++ [w]) r2 v r h ?_
              intro x hx
              rcases List.mem_append.mp hx with hx | hx
              · exact hacc x hx
              · simp only [List.mem_singleton] at hx
                exact hx ▸ hw
            · by_cases hrb : c2 = ']'
              · rw [if_neg hc, if_pos hrb] at h
                simp only [Option.some.injEq, Prod.mk.injEq] at h
                refine h.1 ▸ ValOk.arr (acc ++ [w]) ?_
                intro x hx
                rcases List.mem_append.mp hx with hx | hx
                · exact hacc x hx
                · simp only [List.mem_singleton] at hx
                  exact hx ▸ hw
              · rw [if_neg hc, if_neg hrb] at h
                exact Option.noConfusion h
      · intro acc cs v r h hks hvs hnd
        rw [parseStep_members_eq] at h
        cases hcs : skipWs cs with
        | nil =>
          rw [hcs] at h
          simp only [] at h
          exact Option.noConfusion h
        | cons c rest =>
          rw [hcs] at h
          simp only [] at h
          by_cases hq : c = '"'
          · rw [if_pos hq] at h
            cases hsb : parseStrBody rest with
            | none =>
              rw [hsb] at h
              simp only [] at h
              exact Option.noConfusion h
            | some kp =>
              obtain ⟨k, r1⟩ := kp
              rw [hsb] at h
              simp only [] at h
              have hkok : StrOk k := parseStrBody_strOk rest.length rest le_rfl k r1 hsb
              cases hsk : skipWs r1 with
              | nil =>
                rw [hsk] at h
                simp only [] at h
                exact Option.noConfusion h
              | cons c2 r2 =>
                rw [hsk] at h
                simp only [] at h
                by_cases hcolon : c2 = ':'
                · rw [if_pos hcolon] at h
                  cases hpv : parseStep g .val r2 with
                  | none =>
                    rw [hpv] at h
                    simp only [] at h
                    exact Option.noConfusion h
                  | some pr =>
                    obtain ⟨w, r3⟩ := pr
                    rw [hpv] at h
                    simp only [] at h
                    have hwok : ValOk w := IHv r2 w r3 hpv
                    have hks2 : ∀ kv ∈ insertKey acc k w, StrOk kv.1 := by
                      intro kv hkv
                      rcases mem_insertKey acc k w kv hkv with hkv | hkv
                      · exact hks kv hkv
                      · rw [hkv]
                        exact hkok
                    have hvs2 : ∀ kv ∈ insertKey acc k w, ValOk kv.2 := by
                      intro kv hkv
                      rcases mem_insertKey acc k w kv hkv with hkv | hkv
                      · exact hvs kv hkv
                      · rw [hkv]
                        exact hwok
                    have hnd2 : ((insertKey acc k w).map Prod.fst).Nodup :=
                      insertKey_nodup acc k w hnd
                    cases hsk3 : skipWs r3 with
                    | nil =>
                      rw [hsk3] at h
                      simp only [] at h
                      exact Option.noConfusion h
                    | cons c3 r4 =>
                      rw [hsk3] at h
                      simp only [] at h
                      by_cases hcm : c3 = ','
                      · rw [if_pos hcm] at h
                        exact IHm (insertKey acc k w) r4 v r h hks2 hvs2 hnd2
                      · by_cases hrb : c3 = rbrace
                        · rw [if_neg hcm, if_pos hrb] at h
                          simp only [Option.some.injEq, Prod.mk.injEq] at h
                          exact h.1 ▸ ValOk.obj _ hks2 hvs2 hnd2
                        · rw [if_neg hcm, if_neg hrb] at h
                          exact Option.noConfusion h
                · rw [if_neg hcolon] at h
                  exact Option.noConfusion h
          · rw [if_neg hq] at h
            exact Option.noConfusion h

theorem insertKey_fresh (acc : List (Str × JsonVal)) (k : Str) (v : JsonVal)
    (h : k ∉ acc.map Prod.fst) : insertKey acc k v = acc ++ [(k, v)] := by
  induction acc with
  | nil => rfl
  | cons hd rest ih =>
    obtain ⟨k', v'⟩ := hd
    have hk : ¬ k' = k := by
      intro he
      refine h ?_
      rw [List.map_cons, he]
      exact List.mem_cons_self _ _
    rw [insertKey, if_neg hk, List.cons_append]
    have htail : k ∉ rest.map Prod.fst := by
      intro hm
      refine h ?_
      rw [List.map_cons]
      exact List.mem_cons_of_mem _ hm
    rw [ih htail]

theorem null_true_false_not_start (c : Char) (t : Str)
    (hn : c ≠ 'n') (ht : c ≠ 't') (hf : c ≠ 'f') :
    "null".data.isPrefixOf (c :: t) = false ∧
    "true".data.isPrefixOf (c :: t) = false ∧
    "false".data.isPrefixOf (c :: t) = false := by
  refine ⟨?_, ?_, ?_⟩
  · rw [show ("null".data : Str) = 'n' :: "ull".data from by decide]
    exact isPrefixOf_false_head _ _ _ _ (Ne.symm hn)
  · rw [show ("true".data : Str) = 't' :: "rue".data from by decide]
    exact isPrefixOf_false_head _ _ _ _ (Ne.symm ht)
  · rw [show ("false".data : Str) = 'f' :: "alse".data from by decide]
    exact isPrefixOf_false_head _ _ _ _ (Ne.symm hf)

theorem delim_cons (c : Char) (x : Str) (h : isDigit c = false) : Delim (c :: x) := h

theorem wsOnly_nil : WsOnly [] := by
  intro c h
  simp at h

theorem wsOnly_space : WsOnly [' '] := by
  intro c h
  simp only [List.mem_singleton] at h
  subst h
  decide

theorem serElemsInner_cons (v : JsonVal) (l : List JsonVal) :
    serElemsInner (v :: l) = serVal v ++ serListTail l := rfl

theorem serListTail_nil : serListTail [] = [] := by
  simp [serListTail]

theorem serListTail_cons (v : JsonVal) (l : List JsonVal) :
    serListTail (v :: l) = ',' :: ' ' :: (serVal v ++ serListTail l) := by
  simp [serListTail]

theorem serKvsTail_nil : serKvsTail [] = [] := by
  simp [serKvsTail]

theorem serKvsTail_cons (k : Str) (v : JsonVal) (kvs : List (Str × JsonVal)) :
    serKvsTail ((k, v) :: kvs)
      = ',' :: ' ' :: ('"' :: escStr k ++ '"' :: ':' :: ' ' :: serVal v
        ++ serKvsTail kvs) := by
  simp [serKvsTail]

theorem serKvsTail_cons_inner (k : Str) (v : JsonVal) (kvs : List (Str × JsonVal)) :
    serKvsTail ((k, v) :: kvs) = ',' :: ' ' :: serMembersInner ((k, v) :: kvs) := by
  rw [serKvsTail_cons]
  rfl

theorem serVal_arr_cons (v : JsonVal) (l : List JsonVal) :
    serVal (.arr (v :: l)) = '[' :: serElemsInner (v :: l) ++ [']'] := by
  simp only [serVal, serElemsInner_cons]

theorem serVal_obj_cons (k : Str) (v : JsonVal) (kvs : List (Str × JsonVal)) :
    serVal (.obj ((k, v) :: kvs))
      = lbrace :: serMembersInner ((k, v) :: kvs) ++ [rbrace] := by
  simp only [serVal, serMembersInner]

theorem serMembersInner_cons (k : Str) (v : JsonVal) (kvs : List (Str × JsonVal)) :
    serMembersInner ((k, v) :: kvs)
      = '"' :: (escStr k ++ '"' :: ':' :: ' ' :: (serVal v ++ serKvsTail kvs)) := by
  simp only [serMembersInner]
  simp [List.cons_append, List.append_assoc]

theorem parseStep_ser :
    ∀ f,
      (∀ pre v rest, WsOnly pre → ValOk v → (serVal v).length + 1 ≤ f → Delim rest →
        parseStep f .val (pre ++ (serVal v ++ rest)) = some (v, rest)) ∧
      (∀ pre l acc rest, WsOnly pre → l ≠ [] → (∀ w ∈ l, ValOk w) →
        (serElemsInner l).length + 2 ≤ f →
        parseStep f (.elems acc) (pre ++ (serElemsInner l ++ ']' :: rest))
          = some (.arr (acc ++ l), rest)) ∧
      (∀ pre kvs acc rest, WsOnly pre → kvs ≠ [] →
        (∀ kv ∈ kvs, StrOk kv.1) → (∀ kv ∈ kvs, ValOk kv.2) →
        ((acc ++ kvs).map Prod.fst).Nodup →
        (serMembersInner kvs).length + 2 ≤ f →
        parseStep f (.members acc) (pre ++ (serMembersInner kvs ++ rbrace :: rest))
          = some (.obj (acc ++ kvs), rest)) := by
  intro f
  induction f using Nat.strong_induction_on with
  | _ f IH =>
    match f with
    | 0 =>
      refine ⟨?_, ?_, ?_⟩
      · intro pre v rest _ _ hbud _
        have := serVal_length_pos v
        omega
      · intro pre l acc rest _ _ _ hbud
        omega
      · intro pre kvs acc rest _ _ _ _ _ hbud
        omega
    | Nat.succ g =>
      have IHv := (IH g (by omega)).1
      have IHe := (IH g (by omega)).2.1
      have IHm := (IH g (by omega)).2.2
      refine ⟨?_, ?_, ?_⟩
      · -- a single serialized value, after whitespace padding
        intro pre v rest hpre hok hbud hdel
        rw [parseStep_val_eq]
        obtain ⟨c0, t0, hserHead, hws0, -, -, -⟩ := serVal_head_spec v
        have hskip : skipWs (pre ++ (serVal v ++ rest)) = serVal v ++ rest := by
          rw [skipWs_ws_pad pre hpre]
          rw [hserHead, List.cons_append, skipWs_cons_not_ws _ _ hws0]
        rw [hskip]
        clear hserHead hws0
        cases hok with
        | null =>
          rw [show serVal .null = "null".data from by simp only [serVal]]
          rw [if_pos (by rw [List.isPrefixOf_iff_prefix]; exact List.prefix_append _ _)]
          have hdrop : (("null".data : Str) ++ rest).drop 4 = rest := by
            rw [show (4 : Nat) = ("null".data : Str).length from by decide]
            exact List.drop_left _ _
          rw [hdrop]
        | bool b =>
          cases b with
          | true =>
            rw [show serVal (.bool true) = "true".data from by simp only [serVal]]
            have hsh : ("true".data : Str) ++ rest = 't' :: ("rue".data ++ rest) := rfl
            have h1 : ("null".data : Str).isPrefixOf (("true".data : Str) ++ rest)
                = false := by
              rw [hsh, show ("null".data : Str) = 'n' :: "ull".data from by decide]
              exact isPrefixOf_false_head _ _ _ _ (by decide)
            rw [if_neg (by simp [h1]),
              if_pos (by rw [List.isPrefixOf_iff_prefix]; exact List.prefix_append _ _)]
            have hdrop : (("true".data : Str) ++ rest).drop 4 = rest := by
              rw [show (4 : Nat) = ("true".data : Str).length from by decide]
              exact List.drop_left _ _
            rw [hdrop]
          | false =>
            rw [show serVal (.bool false) = "false".data from by simp only [serVal]]
            have hsh : ("false".data : Str) ++ rest = 'f' :: ("alse".data ++ rest) := rfl
            have h1 : ("null".data : Str).isPrefixOf (("false".data : Str) ++ rest)
                = false := by
              rw [hsh, show ("null".data : Str) = 'n' :: "ull".data from by decide]
              exact isPrefixOf_false_head _ _ _ _ (by decide)
            have h2 : ("true".data : Str).isPrefixOf (("false".data : Str) ++ rest)
                = false := by
              rw [hsh, show ("true".data : Str) = 't' :: "rue".data from by decide]
              exact isPrefixOf_false_head _ _ _ _ (by decide)
            rw [if_neg (by simp [h1]), if_neg (by simp [h2]),
              if_pos (by rw [List.isPrefixOf_iff_prefix]; exact List.prefix_append _ _)]
            have hdrop : (("false".data : Str) ++ rest).drop 5 = rest := by
              rw [show (5 : Nat) = ("false".data : Str).length from by decide]
              exact List.drop_left _ _
            rw [hdrop]
        | num n =>
          rw [show serVal (.num n) = serInt n from by simp only [serVal]]
          have hhead : ∃ c t, serInt n = c :: t ∧ c ≠ 'n' ∧ c ≠ 't' ∧ c ≠ 'f' ∧
              c ≠ '"' ∧ c ≠ lbrace ∧ c ≠ '[' := by
            by_cases hneg : n < 0
            · exact ⟨'-', digitsOf n.natAbs, by rw [serInt, if_pos hneg], by decide,
                by decide, by decide, by decide, by decide, by decide⟩
            · obtain ⟨c, t, he, hd, -⟩ := digitsOf_head n.toNat
              obtain ⟨f1, f2, f3, f4, f5, f6, -, -, -, -, -⟩ := isDigit_char_facts c hd
              exact ⟨c, t, by rw [serInt, if_neg hneg]; exact he, f1, f2, f3, f4, f5, f6⟩
          obtain ⟨c, t, hser, fn, ft, ff, fq, fb, fa⟩ := hhead
          have hsh : serInt n ++ rest = c :: (t ++ rest) := by
            rw [hser, List.cons_append]
          have hp := null_true_false_not_start c (t ++ rest) fn ft ff
          rw [hsh, if_neg (by simp [hp.1]), if_neg (by simp [hp.2.1]),
            if_neg (by simp [hp.2.2])]
          simp only []
          rw [if_neg fq, if_neg fb, if_neg fa, ← List.cons_append, ← hser,
            parseNumTok_ser n rest hdel]
          rfl
        | str s hs =>
          rw [show serVal (.str s) = ('"' :: escStr s) ++ ['"'] from by
            simp only [serVal]]
          have hsh : (('"' :: escStr s) ++ ['"']) ++ rest
              = '"' :: (escStr s ++ '"' :: rest) := by
            simp [List.cons_append, List.append_assoc]
          have hp := null_true_false_not_start '"' (escStr s ++ '"' :: rest)
            (by decide) (by decide) (by decide)
          rw [hsh, if_neg (by simp [hp.1]), if_neg (by simp [hp.2.1]),
            if_neg (by simp [hp.2.2])]
          simp only []
          rw [if_pos trivial, parseStrBody_escStr s hs rest]
          rfl
        | arr l hl =>
          cases l with
          | nil =>
            rw [show serVal (.arr []) = ['[', ']'] from by simp only [serVal]]
            have hsh : (['[', ']'] : Str) ++ rest = '[' :: (']' :: rest) := rfl
            have hp := null_true_false_not_start '[' (']' :: rest)
              (by decide) (by decide) (by decide)
            rw [hsh, if_neg (by simp [hp.1]), if_neg (by simp [hp.2.1]),
              if_neg (by simp [hp.2.2])]
            simp only []
            rw [if_neg (by decide), if_neg (by decide), if_pos trivial,
              skipWs_cons_not_ws _ _ (by decide)]
            simp only []
            rw [if_pos trivial]
          | cons w l' =>
            rw [serVal_arr_cons]
            obtain ⟨cw, tw, hserw, hwsw, -, hnew, -⟩ := serVal_head_spec w
            have hinner : serElemsInner (w :: l') = cw :: (tw ++ serListTail l') := by
              rw [serElemsInner_cons, hserw, List.cons_append]
            have hsh : ('[' :: serElemsInner (w :: l') ++ [']']) ++ rest
                = '[' :: (serElemsInner (w :: l') ++ ']' :: rest) := by
              simp [List.cons_append, List.append_assoc]
            have hp := null_true_false_not_start '['
              (serElemsInner (w :: l') ++ ']' :: rest)
              (by decide) (by decide) (by decide)
            rw [hsh, if_neg (by simp [hp.1]), if_neg (by simp [hp.2.1]),
              if_neg (by simp [hp.2.2])]
            simp only []
            rw [if_neg (by decide), if_neg (by decide), if_pos trivial]
            rw [hinner, List.cons_append, skipWs_cons_not_ws _ _ hwsw]
            simp only []
            rw [if_neg hnew]
            have hlen : (serVal (.arr (w :: l'))).length
                = (serElemsInner (w :: l')).length + 2 := by
              rw [serVal_arr_cons, List.cons_append, List.length_cons,
                List.length_append, List.length_singleton]
            have h2 := IHe [] (w :: l') [] rest wsOnly_nil (by simp) hl (by omega)
            simp only [List.nil_append] at h2
            rw [hinner, List.cons_append] at h2
            rw [h2]
        | obj kvs hks hvs hnd =>
          cases kvs with
          | nil =>
            rw [show serVal (.obj []) = [lbrace, rbrace] from by simp only [serVal]]
            have hsh : ([lbrace, rbrace] : Str) ++ rest
                = lbrace :: (rbrace :: rest) := rfl
            have hp := null_true_false_not_start lbrace (rbrace :: rest)
              (by decide) (by decide) (by decide)
            rw [hsh, if_neg (by simp [hp.1]), if_neg (by simp [hp.2.1]),
              if_neg (by simp [hp.2.2])]
            simp only []
            rw [if_neg (by decide), if_pos trivial,
              skipWs_cons_not_ws _ _ (by decide)]
            simp only []
            rw [if_pos trivial]
          | cons kv kvs' =>
            obtain ⟨k, w⟩ := kv
            rw [serVal_obj_cons]
            have hinner : serMembersInner ((k, w) :: kvs')
                = '"' :: (escStr k ++ '"' :: ':' :: ' ' :: (serVal w
                  ++ serKvsTail kvs')) := serMembersInner_cons k w kvs'
            have hsh : (lbrace :: serMembersInner ((k, w) :: kvs') ++ [rbrace]) ++ rest
                = lbrace :: (serMembersInner ((k, w) :: kvs') ++ rbrace :: rest) := by
              simp [List.cons_append, List.append_assoc]
            have hp := null_true_false_not_start lbrace
              (serMembersInner ((k, w) :: kvs') ++ rbrace :: rest)
              (by decide) (by decide) (by decide)
            rw [hsh, if_neg (by simp [hp.1]), if_neg (by simp [hp.2.1]),
              if_neg (by simp [hp.2.2])]
            simp only []
            rw [if_neg (by decide), if_pos trivial]
            rw [hinner, List.cons_append, skipWs_cons_not_ws _ _ (by decide)]
            simp only []
            rw [if_neg (by decide)]
            have hlen : (serVal (.obj ((k, w) :: kvs'))).length
                = (serMembersInner ((k, w) :: kvs')).length + 2 := by
              rw [serVal_obj_cons, List.cons_append, List.length_cons,
                List.length_append, List.length_singleton]
            have h2 := IHm [] ((k, w) :: kvs') [] rest wsOnly_nil (by simp) hks hvs
              hnd (by omega)
            simp only [List.nil_append] at h2
            rw [hinner, List.cons_append] at h2
            rw [h2]
      · -- the elements of a nonempty array, up to the closing bracket
        intro pre l acc rest hpre hne hl hbud
        cases l with
        | nil => exact absurd rfl hne
        | cons w l' =>
          rw [parseStep_elems_eq]
          have hassoc : pre ++ (serElemsInner (w :: l') ++ ']' :: rest)
              = pre ++ (serVal w ++ (serListTail l' ++ ']' :: rest)) := by
            rw [serElemsInner_cons]
            simp [List.append_assoc]
          have hlen1 : (serElemsInner (w :: l')).length
              = (serVal w).length + (serListTail l').length := by
            rw [serElemsInner_cons, List.length_append]
          have hdel2 : Delim (serListTail l' ++ ']' :: rest) := by
            cases l' with
            | nil =>
              rw [serListTail_nil]
              exact delim_cons _ _ (by decide)
            | cons w2 l'' =>
              rw [serListTail_cons]
              exact delim_cons _ _ (by decide)
          rw [hassoc, IHv pre w (serListTail l' ++ ']' :: rest) hpre
            (hl w (by simp)) (by omega) hdel2]
          simp only []
          cases l' with
          | nil =>
            rw [serListTail_nil, List.nil_append,
              skipWs_cons_not_ws _ _ (by decide)]
            simp only []
            rw [if_neg (by decide), if_pos trivial]
          | cons w2 l'' =>
            rw [serListTail_cons]
            have hsh : (',' :: ' ' :: (serVal w2 ++ serListTail l'')) ++ ']' :: rest
                = ',' :: (' ' :: (serVal w2 ++ serListTail l'') ++ ']' :: rest) := rfl
            rw [hsh, skipWs_cons_not_ws _ _ (by decide)]
            simp only []
            rw [if_pos trivial]
            have hsh2 : ' ' :: (serVal w2 ++ serListTail l'') ++ ']' :: rest
                = [' '] ++ (serElemsInner (w2 :: l'') ++ ']' :: rest) := by
              rw [serElemsInner_cons]
              simp [List.cons_append, List.append_assoc]
            have hlen3 : (serListTail (w2 :: l'')).length
                = (serElemsInner (w2 :: l'')).length + 2 := by
              rw [serListTail_cons, serElemsInner_cons]
              simp only [List.length_cons, List.length_append]
            rw [hsh2, IHe [' '] (w2 :: l'') (acc ++ [w]) rest wsOnly_space
              (by simp) (fun x hx => hl x (by simp [hx]))
              (by have := serVal_length_pos w; omega)]
            simp [List.append_assoc]
      · -- the members of a nonempty object, up to the closing brace
        intro pre kvs acc rest hpre hne hks hvs hnd hbud
        cases kvs with
        | nil => exact absurd rfl hne
        | cons kv kvs' =>
          obtain ⟨k, w⟩ := kv
          rw [parseStep_members_eq]
          have hinner : serMembersInner ((k, w) :: kvs')
              = '"' :: (escStr k ++ '"' :: ':' :: ' ' :: (serVal w
                ++ serKvsTail kvs')) := serMembersInner_cons k w kvs'
          have hskip : skipWs (pre ++ (serMembersInner ((k, w) :: kvs')
              ++ rbrace :: rest))
              = serMembersInner ((k, w) :: kvs') ++ rbrace :: rest := by
            rw [skipWs_ws_pad pre hpre, hinner, List.cons_append,
              skipWs_cons_not_ws _ _ (by decide)]
          rw [hskip, hinner, List.cons_append]
          simp only []
          rw [if_pos trivial]
          have hstr : parseStrBody ((escStr k ++ '"' :: ':' :: ' ' :: (serVal w
              ++ serKvsTail kvs')) ++ rbrace :: rest)
              = some (k, (':' :: ' ' :: (serVal w ++ serKvsTail kvs'))
                  ++ rbrace :: rest) := by
            have hsh : (escStr k ++ '"' :: ':' :: ' ' :: (serVal w
                ++ serKvsTail kvs')) ++ rbrace :: rest
                = escStr k ++ '"' :: ((':' :: ' ' :: (serVal w ++ serKvsTail kvs'))
                  ++ rbrace :: rest) := by
              simp [List.cons_append, List.append_assoc]
            rw [hsh]
            exact parseStrBody_escStr k (hks (k, w) (by simp)) _
          rw [hstr]
          simp only []
          rw [show (':' :: ' ' :: (serVal w ++ serKvsTail kvs')) ++ rbrace :: rest
              = ':' :: (' ' :: (serVal w ++ serKvsTail kvs') ++ rbrace :: rest)
            from rfl]
          rw [skipWs_cons_not_ws _ _ (by decide)]
          simp only []
          rw [if_pos trivial]
          have hlenM : (serMembersInner ((k, w) :: kvs')).length
              = 4 + (escStr k).length + (serVal w).length
                + (serKvsTail kvs').length := by
            rw [hinner]
            simp only [List.length_cons, List.length_append]
            omega
          have hdel2 : Delim (serKvsTail kvs' ++ rbrace :: rest) := by
            cases kvs' with
            | nil =>
              rw [serKvsTail_nil]
              exact delim_cons _ _ (by decide)
            | cons kv2 kvs'' =>
              obtain ⟨k2, w2⟩ := kv2
              rw [serKvsTail_cons]
              exact delim_cons _ _ (by decide)
          have hsh3 : ' ' :: (serVal w ++ serKvsTail kvs') ++ rbrace :: rest
              = [' '] ++ (serVal w ++ (serKvsTail kvs' ++ rbrace :: rest)) := by
            simp [List.cons_append, List.append_assoc]
          rw [hsh3, IHv [' '] w (serKvsTail kvs' ++ rbrace :: rest) wsOnly_space
            (hvs (k, w) (by simp)) (by omega) hdel2]
          simp only []
          have hfresh : k ∉ acc.map Prod.fst := by
            intro hk
            have hnd2 := hnd
            rw [List.map_append, List.nodup_append] at hnd2
            exact hnd2.2.2 hk (List.mem_cons_self _ _)
          have hins : insertKey acc k w = acc ++ [(k, w)] :=
            insertKey_fresh acc k w hfresh
          cases kvs' with
          | nil =>
            rw [serKvsTail_nil, List.nil_append, skipWs_cons_not_ws _ _ (by decide)]
            simp only []
            rw [if_neg (by decide), if_pos trivial, hins]
          | cons kv2 kvs'' =>
            obtain ⟨k2, w2⟩ := kv2
            rw [serKvsTail_cons_inner]
            rw [show (',' :: ' ' :: serMembersInner ((k2, w2) :: kvs'')) ++ rbrace :: rest
                = ',' :: ((' ' :: serMembersInner ((k2, w2) :: kvs'')) ++ rbrace :: rest)
              from rfl]
            rw [skipWs_cons_not_ws _ _ (by decide)]
            simp only []
            rw [if_pos trivial, hins]
            have hlenT : (serKvsTail ((k2, w2) :: kvs'')).length
                = (serMembersInner ((k2, w2) :: kvs'')).length + 2 := by
              rw [serKvsTail_cons_inner]
              simp only [List.length_cons]
            have h2m := IHm [' '] ((k2, w2) :: kvs'') (acc ++ [(k, w)]) rest
              wsOnly_space (by simp)
              (fun kv hkv => hks kv (by simp [hkv]))
              (fun kv hkv => hvs kv (by simp [hkv]))
              (by rw [List.append_assoc]; exact hnd)
              (by have := serVal_length_pos w; omega)
            rw [show ([' '] : Str) ++ (serMembersInner ((k2, w2) :: kvs'')
                  ++ rbrace :: rest)
                = (' ' :: serMembersInner ((k2, w2) :: kvs'')) ++ rbrace :: rest
              from by simp [List.cons_append]] at h2m
            rw [h2m]
            simp [List.append_assoc]

theorem pyJsonLoads_serVal (v : JsonVal) (h : ValOk v) :
    pyJsonLoads (serVal v) = some v := by
  have hp := (parseStep_ser ((serVal v).length + 1)).1 [] v [] wsOnly_nil h
    (by omega) trivial
  rw [List.nil_append, List.append_nil] at hp
  simp only [pyJsonLoads]
  rw [hp]
  rfl

theorem pyJsonLoads_valOk (cs : Str) (v : JsonVal) (h : pyJsonLoads cs = some v) :
    ValOk v := by
  simp only [pyJsonLoads] at h
  cases hp : parseStep (cs.length + 1) .val cs with
  | none =>
    rw [hp] at h
    exact Option.noConfusion h
  | some pr =>
    obtain ⟨w, r⟩ := pr
    rw [hp] at h
    simp only [] at h
    by_cases hw : (skipWs r).isEmpty
    · rw [if_pos hw] at h
      cases h
      exact (parseStep_valOk (cs.length + 1)).1 cs _ r hp
    · rw [if_neg hw] at h
      exact Option.noConfusion h

theorem pyStrip_serVal (v : JsonVal) : pyStrip (serVal v) = serVal v := by
  obtain ⟨c, t, he, -, hws, -, -⟩ := serVal_head_spec v
  obtain ⟨d, hd, hdws⟩ := serVal_last_spec v
  refine pyStrip_eq_self _ ?_ ?_
  · intro x hx
    rw [he] at hx
    simp only [List.head?_cons] at hx
    cases hx
    exact hws
  · intro x hx
    rw [hd] at hx
    cases hx
    exact hdws

theorem gradioAppClean_serVal (v : JsonVal) :
    gradioAppClean (serVal v) = serVal v := by
  obtain ⟨c, t, he, -, -, -, hbt⟩ := serVal_head_spec v
  have hpref : ("```json".data : Str).isPrefixOf (serVal v) = false := by
    rw [he, show ("```json".data : Str) = btick :: "``json".data from by decide]
    exact isPrefixOf_false_head _ _ _ _ (Ne.symm hbt)
  simp only [gradioAppClean]
  rw [pyStrip_serVal]
  rw [if_neg (by simp [hpref])]

/-- C9, counterexample: in `new_gradio.py` the repair pass is not round-trip
stable.  On the model reply `\x7b"k": 1\x7d` with OCR text made of three
backticks, the pass succeeds and appends the `_raw_ocr_text` diagnostic;
re-serializing that output with `json.dumps` embeds the backticks, so the
second pass takes the fence branch, hands only the tail `"\x7d` to
`json.loads`, and returns a failure value instead of the same object. -/
theorem c9_cex_second_pass_fails_in_new_gradio :
    newGradioRepair "\x7b\"k\": 1\x7d".data "```".data
      = .obj [("k".data, .num 1), ("_raw_ocr_text".data, .str "```".data)] ∧
    newGradioRepair
        (serVal (.obj [("k".data, .num 1), ("_raw_ocr_text".data, .str "```".data)]))
        "```".data
      ≠ .obj [("k".data, .num 1), ("_raw_ocr_text".data, .str "```".data)] := by
  have hser : serVal (.obj [("k".data, .num 1),
      ("_raw_ocr_text".data, .str "```".data)])
      = "\x7b\"k\": 1, \"_raw_ocr_text\": \"```\"\x7d".data := by
    simp [serVal, serListTail, serKvsTail, serInt, digitsOf, digitsOfAux,
      escStr, escChar]
    decide
  have hval : newGradioRepair "\x7b\"k\": 1, \"_raw_ocr_text\": \"```\"\x7d".data
      "```".data
      = .obj [(errKey, .str "Failed to parse JSON from LLM".data),
              ("raw_ocr_text".data, .str "```".data),
              ("llm_output".data, .str "\"\x7d".data),
              ("parse_error".data, .str jsonDecodeErrMsg)] := by rfl
  refine ⟨by rfl, ?_⟩
  rw [hser, hval]
  intro h
  injection h with h1
  injection h1 with h2 h3
  have h4 : errKey = "k".data := congrArg Prod.fst h2
  exact absurd h4 (by decide)

/-- C9, amended: the `gradio_app.py` variant is round-trip stable.  Whenever
its cleanup-plus-`json.loads` pass succeeds with value `v`, the repair pass
returns `v`, and re-running the repair pass on the `json.dumps`
re-serialization of `v` returns the same `v`: the serialized text has no
surrounding whitespace and no fence prefix, so the cleanup leaves it intact,
and the parser inverts the serializer on every value `json.loads` can
produce. -/
theorem c9_amended_gradio_idempotent (s : Str) (v : JsonVal)
    (h : pyJsonLoads (gradioAppClean s) = some v) :
    gradioAppRepair s = v ∧ gradioAppRepair (serVal v) = v := by
  constructor
  · simp only [gradioAppRepair, h]
  · have hok : ValOk v := pyJsonLoads_valOk _ _ h
    have hld : pyJsonLoads (gradioAppClean (serVal v)) = some v := by
      rw [gradioAppClean_serVal, pyJsonLoads_serVal v hok]
    simp only [gradioAppRepair, hld]

theorem c9_amended_witness :
    pyJsonLoads (gradioAppClean "\x7b\"name\": \"A\"\x7d".data)
      = some (.obj [("name".data, .str "A".data)]) ∧
    gradioAppRepair "\x7b\"name\": \"A\"\x7d".data
      = .obj [("name".data, .str "A".data)] ∧
    gradioAppRepair (serVal (.obj [("name".data, .str "A".data)]))
      = .obj [("name".data, .str "A".data)] :=
  ⟨rfl,
   (c9_amended_gradio_idempotent "\x7b\"name\": \"A\"\x7d".data
      (.obj [("name".data, .str "A".data)]) rfl).1,
   (c9_amended_gradio_idempotent "\x7b\"name\": \"A\"\x7d".data
      (.obj [("name".data, .str "A".data)]) rfl).2⟩

theorem c7_amended_witness :
    gradioAppRepair "\x7b\"x\": 1, \"extra\": 2\x7d".data =
      .obj [("x".data, .num 1), ("extra".data, .num 2)] ∧
    lookupKey (moondreamRepair "nope".data) rawOutputKey =
      some (.str (moondreamClean "nope".data)) ∧
    newGradioRepair "\x7b\"x\": 1\x7d".data "T".data =
      .obj (insertKey [("x".data, .num 1)] "_raw_ocr_text".data
        (.str "T".data)) :=
  ⟨(c7_amended_diagnostics "\x7b\"x\": 1, \"extra\": 2\x7d".data "T".data).1
      (.obj [("x".data, .num 1), ("extra".data, .num 2)]) rfl,
   (c7_amended_diagnostics "nope".data "T".data).2.1 rfl,
   (c7_amended_diagnostics "\x7b\"x\": 1\x7d".data "T".data).2.2
      [("x".data, .num 1)] rfl⟩
